import Mathlib

/-!
Block-level data engine: compaction scoring, point reads, chain writes, key
lookup and deduplication.

A shallow embedding of `pkg/vm/engine/tae/tables/block.go`, of `ForceLoad` in
`pkg/vm/engine/aoe/storage/layout/table/v1/col/part.go` and of `UpdateByFilter`
in `pkg/vm/engine/tae/txn/txnimpl/relation.go`.

Conventions of the embedding

* Go `int`, `uint32` and `uint64` values are integers or naturals; the only
  counter whose wrap-around is observable, `nice` (a `uint32` bumped with
  `atomic.AddUint32`), is reduced modulo `2 ^ 32` explicitly.
* `float64` arithmetic in `estimateRawScore` is IEEE 754 binary64 arithmetic on
  the values that occur there, which are never negative: finite values
  `m * 2 ^ e`, positive infinity and NaN. Every operation rounds once, to
  nearest, ties to even, as the code compiled for amd64 does (no fused
  multiply-add). The conversion `int(x)` truncates; for NaN, infinity and
  values out of range, where Go leaves the result to the implementation, it
  gives the minimum `int64`, as amd64 does.
* Collaborators whose code lies outside the embedded files (the MVCC handle, the
  appendable node, the column files, the index, the table of a relation) are
  records of the operations called on them. The write path mutates the chains
  of the MVCC handle; there the chains are explicit lists of nodes and their
  operations follow the words of the spec.
* Locks are not modelled: each operation is taken as one atomic step.
-/

namespace Tables

/-- Column values (Go `any`); the nil interface is `Option.none`. -/
abbrev Value := Int

/-- Error values the block compares against or returns. `TxnErrNotFound` is
`txnbase.ErrNotFound`, `DataErrNotFound` is `data.ErrNotFound`. The last four
are error kinds of the spec (AlreadyDeleted, WriteConflict, ReadOnlyBlock) and
any other error, by a code. -/
inductive Error where
  | TxnInternalErr
  | TxnErrNotFound
  | DataErrNotFound
  | ErrDuplicated
  | ErrPossibleDuplicate
  | AlreadyDeleted
  | WriteConflict
  | ReadOnlyBlock
  | Other (code : Nat)
deriving DecidableEq, Repr

/-- The part of `catalog.Schema` the block reads: `len(ColDefs)`, the
primary-key column and the row capacity of a block. -/
structure Schema where
  ColDefs : Nat
  PrimaryKey : Nat
  BlockMaxRows : Nat
deriving DecidableEq, Repr

/-- The part of `catalog.BlockEntry` the block reads. -/
structure BlockEntry where
  schema : Schema
  ID : Nat
  IsAppendable : Bool
  IsDroppedCommitted : Bool
  IsDroppedUncommitted : Bool
  HasActiveTxn : Bool
deriving DecidableEq, Repr

/-- Operations of `updates.MVCCHandle` the block calls.
`IsDeletedLocked row ts`, `GetValueLocked col row ts` (the column chain of
`col`), `GetMaxVisibleRowLocked ts` and `IsVisibleLocked row ts` return Go
result tuples; `CollectDeletesLocked ts` is the delete mask of the node that
the delete chain collects at `ts` (nil when it collects no node) and the
error of the collection. -/
structure MVCCHandle where
  GetChangeNodeCnt : Nat
  GetColumnUpdateCnt : Nat → Nat
  GetDeleteCnt : Nat
  LoadMaxVisible : Nat
  IsDeletedLocked : Nat → Nat → Bool × Option Error
  GetValueLocked : Nat → Nat → Nat → Option Value × Option Error
  GetMaxVisibleRowLocked : Nat → Nat × Bool × Option Error
  IsVisibleLocked : Nat → Nat → Bool × Option Error
  CollectDeletesLocked : Nat → Option (List Nat) × Option Error

/-- Operations of the appendable node the block calls: `Rows(nil, true)`, the
outcome of pinning the node in `DoWithPin` (an error means the callback is not
run) and `GetVectorCopy maxRow colIdx`. -/
structure appendableNode where
  Rows : Nat
  pin : Option Error
  GetVectorCopy : Nat → Nat → Option (List Value) × Option Error

/-- The block file: `ReadRows()` and, per column, what `wrapper.ReadFrom` leaves
in the wrapper's vector together with its error. -/
structure BlockFile where
  ReadRows : Nat
  ReadFrom : Nat → List Value × Option Error

/-- The primary-key index: the active map (key to row offset) and the
tombstone map (key to delete timestamp) of the mutable variant, and the
answers of the index to `Dedup key` and to `BatchDedup keys rowmask`
(`(keyselects, err)`), which for the immutable variant may name keys that are
no duplicates. An index built without them reports no candidate. -/
structure Index where
  active : List (Value × Nat)
  deleted : List (Value × Nat)
  Dedup : Value → Option Error := fun _ => none
  BatchDedup : List Value → Option (List Nat) → Option (List Nat) × Option Error :=
    fun _ _ => (none, none)

/-- The state of a `dataBlock`. `node` is read only on the appendable paths
(the source keeps a nil node in a non-appendable block). -/
structure dataBlock where
  meta : BlockEntry
  node : appendableNode
  file : BlockFile
  index : Index
  mvcc : MVCCHandle
  nice : Nat
  ckpTs : Nat

/-- Truncation of a rational toward zero, the `trunc` of the scoring formula in
exact arithmetic. -/
def truncToInt (x : ℚ) : Int :=
  if 0 ≤ x then ⌊x⌋ else ⌈x⌉

/-- The method `dataBlock.Rows(nil, true)`: the node's row count for an appendable block,
the file's row count otherwise. -/
def dataBlock.Rows (blk : dataBlock) : Int :=
  if blk.meta.IsAppendable then (blk.node.Rows : Int) else (blk.file.ReadRows : Int)

/-- The method `dataBlock.GetMaxCheckpointTS`. -/
def dataBlock.GetMaxCheckpointTS (blk : dataBlock) : Nat :=
  blk.ckpTs

/-- A non-negative float64 value: a finite value `m * 2 ^ e`, positive
infinity or NaN. -/
inductive F64 where
  | finite (m : Nat) (e : Int)
  | inf
  | nan
deriving DecidableEq, Repr

/-- The recursion behind `ilog2`; `fuel` counts the halvings left. -/
def log2Fuel : Nat → Nat → Nat
  | 0, _ => 0
  | fuel + 1, n => if n < 2 then 0 else log2Fuel fuel (n / 2) + 1

/-- The position of the highest set bit of `n` (0 for `n = 0`): `n` halvings
always suffice. -/
def ilog2 (n : Nat) : Nat :=
  log2Fuel n n

/-- A finite value unless it reaches `2 ^ 1024`, where float64 overflows to
infinity. -/
def F64.checked (m : Nat) (e : Int) : F64 :=
  if m ≠ 0 ∧ (ilog2 m : Int) + e ≥ 1024 then F64.inf else F64.finite m e

/-- The float64 nearest to `M * 2 ^ E`, ties to even: at most 53 significant
bits and no bit below `2 ^ (-1074)`. -/
def F64.roundMant (M : Nat) (E : Int) : F64 :=
  if M = 0 then F64.finite 0 0
  else
    let bits : Int := (ilog2 M : Int) + 1
    let k : Int := max (bits - 53) (-1074 - E)
    if k ≤ 0 then F64.checked M E
    else
      let q := M / 2 ^ k.toNat
      let rem := M % 2 ^ k.toNat
      let half := 2 ^ (k.toNat - 1)
      let m := if rem > half ∨ (rem = half ∧ q % 2 = 1) then q + 1 else q
      F64.checked m (E + k)

/-- The float64 nearest to `(p / q) * 2 ^ E` for `q > 0`: the quotient is taken
with at least 55 bits and a sticky bit, then rounded once. -/
def F64.roundRatio (p q : Nat) (E : Int) : F64 :=
  if p = 0 then F64.finite 0 0
  else
    let s := (55 + ilog2 q) - ilog2 p
    let n := p * 2 ^ s / q
    let sticky := if p * 2 ^ s % q = 0 then 0 else 1
    F64.roundMant (2 * n + sticky) (E - (s : Int) - 1)

/-- Conversion of a non-negative integer to float64. -/
def F64.ofNat (n : Nat) : F64 :=
  F64.roundMant n 0

/-- Float64 addition. -/
def F64.add : F64 → F64 → F64
  | F64.finite m1 e1, F64.finite m2 e2 =>
    let e := min e1 e2
    F64.roundMant (m1 * 2 ^ (e1 - e).toNat + m2 * 2 ^ (e2 - e).toNat) e
  | F64.nan, _ => F64.nan
  | _, F64.nan => F64.nan
  | _, _ => F64.inf

/-- Float64 multiplication. -/
def F64.mul : F64 → F64 → F64
  | F64.finite m1 e1, F64.finite m2 e2 => F64.roundMant (m1 * m2) (e1 + e2)
  | F64.nan, _ => F64.nan
  | _, F64.nan => F64.nan
  | F64.inf, F64.finite m _ => if m = 0 then F64.nan else F64.inf
  | F64.finite m _, F64.inf => if m = 0 then F64.nan else F64.inf
  | F64.inf, F64.inf => F64.inf

/-- Float64 division. -/
def F64.div : F64 → F64 → F64
  | F64.finite m1 e1, F64.finite m2 e2 =>
    if m2 = 0 then (if m1 = 0 then F64.nan else F64.inf)
    else F64.roundRatio m1 m2 (e1 - e2)
  | F64.nan, _ => F64.nan
  | _, F64.nan => F64.nan
  | F64.finite _ _, F64.inf => F64.finite 0 0
  | F64.inf, F64.finite _ _ => F64.inf
  | F64.inf, F64.inf => F64.nan

/-- Float64 comparison `a < b`; false when an operand is NaN. -/
def F64.lt : F64 → F64 → Bool
  | F64.finite m1 e1, F64.finite m2 e2 =>
    decide (m1 * 2 ^ (e1 - min e1 e2).toNat < m2 * 2 ^ (e2 - min e1 e2).toNat)
  | F64.finite _ _, F64.inf => true
  | _, _ => false

/-- Float64 comparison `a >= b`; false when an operand is NaN. -/
def F64.ge : F64 → F64 → Bool
  | F64.finite m1 e1, F64.finite m2 e2 =>
    decide (m2 * 2 ^ (e2 - min e1 e2).toNat ≤ m1 * 2 ^ (e1 - min e1 e2).toNat)
  | F64.inf, F64.finite _ _ => true
  | F64.inf, F64.inf => true
  | _, _ => false

/-- Go conversion `int(x)` of a float64 on amd64: truncation, and the minimum
`int64` for NaN, infinity and values out of range. -/
def F64.toInt : F64 → Int
  | F64.finite m e =>
    let v := if 0 ≤ e then m * 2 ^ e.toNat else m / 2 ^ (-e).toNat
    if v < 9223372036854775808 then (v : Int) else -9223372036854775808
  | _ => -9223372036854775808


/-- Conversion of a Go `int` that is not negative (a row count, a loop counter)
to float64. -/
def F64.ofInt (n : Int) : F64 :=
  F64.ofNat n.toNat

/-- The Go constant `0.005` as a float64. -/
def F64.c0005 : F64 :=
  F64.roundRatio 5 1000 0

/-- The Go constant `0.10` as a float64. -/
def F64.c010 : F64 :=
  F64.roundRatio 10 100 0

/-- The three-way weighting of a column factor in the loop of
`estimateRawScore`. -/
def weighColFactor (colFactor : F64) : F64 :=
  if F64.lt colFactor F64.c0005 = true then F64.mul colFactor (F64.ofNat 10)
  else if F64.ge colFactor F64.c0005 = true ∧ F64.lt colFactor F64.c010 = true then
    F64.mul colFactor (F64.ofNat 20)
  else if F64.ge colFactor F64.c010 = true then F64.mul colFactor (F64.ofNat 40)
  else colFactor

/-- One iteration of the loop over `ColDefs` in `estimateRawScore`; the
accumulator is `(cols, factor)` and `i` is converted to `uint16`. -/
def colFactorStep (blk : dataBlock) (rows : Int) (acc : Int × F64) (i : Nat) : Int × F64 :=
  let cnt := blk.mvcc.GetColumnUpdateCnt (i % 65536)
  let colFactor : F64 := F64.div (F64.ofNat cnt) (F64.ofInt rows)
  (acc.1 + 1, F64.add acc.2 (weighColFactor colFactor))

/-- The method `dataBlock.estimateRawScore`. -/
def estimateRawScore (blk : dataBlock) : Int :=
  if blk.Rows = (blk.meta.schema.BlockMaxRows : Int) ∧ blk.meta.IsAppendable = true then
    100
  else if blk.mvcc.GetChangeNodeCnt = 0 ∧ blk.meta.IsAppendable = false then
    0
  else if blk.mvcc.GetChangeNodeCnt = 0 ∧ blk.meta.IsAppendable = true
      ∧ blk.mvcc.LoadMaxVisible ≤ blk.GetMaxCheckpointTS then
    0
  else
    let ret : Int := 0
    let rows := blk.Rows
    let acc := (List.range blk.meta.schema.ColDefs).foldl (colFactorStep blk rows)
      (0, F64.ofNat 0)
    let factor : F64 := F64.div acc.2 (F64.ofInt acc.1)
    let deleteCnt := blk.mvcc.GetDeleteCnt
    let factor :=
      F64.add factor (F64.mul (F64.div (F64.ofNat deleteCnt) (F64.ofInt rows)) (F64.ofNat 50))
    let ret := ret + F64.toInt (F64.mul factor (F64.ofNat 100))
    if ret = 0 then ret + 1 else ret

/-- The method `dataBlock.RunCalibration`: `atomic.AddUint32(&blk.nice, 1)` unless the raw
score is zero. -/
def RunCalibration (blk : dataBlock) : dataBlock :=
  let score := estimateRawScore blk
  if score = 0 then blk
  else { blk with nice := (blk.nice + 1) % 4294967296 }

/-- The method `dataBlock.resetNice`. -/
def resetNice (blk : dataBlock) : dataBlock :=
  { blk with nice := 0 }

/-- The method `dataBlock.EstimateScore`: the returned score and the block afterwards. -/
def EstimateScore (blk : dataBlock) : Int × dataBlock :=
  if blk.meta.IsAppendable = true ∧ blk.Rows = (blk.meta.schema.BlockMaxRows : Int) then
    if blk.meta.IsDroppedCommitted = true ∨ blk.meta.IsDroppedUncommitted = true then
      (0, blk)
    else
      (100, blk)
  else
    let score := estimateRawScore blk
    if score = 0 then (0, resetNice blk)
    else (score + (blk.nice : Int), blk)

/-- The task factories of package `jobs` that the block hands out, each built
from the block's metadata. -/
inductive TxnTaskFactory where
  | CompactBlockTaskFactory (entry : BlockEntry)
  | CompactABlockTaskFactory (entry : BlockEntry)
deriving DecidableEq, Repr

/-- Task types set by `BuildCompactionTaskFactory`. -/
inductive TaskType where
  | DataCompactionTask
deriving DecidableEq, Repr

/-- The four results of `BuildCompactionTaskFactory`; `none` is a result left at
its zero value. -/
structure CompactionTask where
  factory : Option TxnTaskFactory
  taskType : Option TaskType
  scopes : List Nat
  err : Option Error
deriving DecidableEq, Repr

/-- The method `dataBlock.BuildCompactionTaskFactory`. -/
def BuildCompactionTaskFactory (blk : dataBlock) : CompactionTask :=
  let dropped := blk.meta.IsDroppedCommitted
  let inTxn := blk.meta.HasActiveTxn
  if dropped = true ∨ inTxn = true then
    { factory := none, taskType := none, scopes := [], err := none }
  else if blk.meta.IsAppendable = false
      ∨ (blk.meta.IsAppendable = true ∧ blk.Rows = (blk.meta.schema.BlockMaxRows : Int)) then
    { factory := some (TxnTaskFactory.CompactBlockTaskFactory blk.meta),
      taskType := some TaskType.DataCompactionTask,
      scopes := [] ++ [blk.meta.ID], err := none }
  else if blk.meta.IsAppendable = true then
    { factory := some (TxnTaskFactory.CompactABlockTaskFactory blk.meta),
      taskType := some TaskType.DataCompactionTask,
      scopes := [] ++ [blk.meta.ID], err := none }
  else
    { factory := none, taskType := none, scopes := [] ++ [blk.meta.ID], err := none }

/-- A transaction as the block sees it: an identity and `GetStartTS()`. -/
structure AsyncTxn where
  ID : Nat
  StartTS : Nat
deriving DecidableEq, Repr

/-- Outcome of running a Go function: it returns, or it stops in a run-time
panic (nil dereference, index out of range). -/
inductive Exec (α : Type) where
  | returned (a : α)
  | panicked
deriving DecidableEq, Repr

/-- The part of `model.ColumnView` the block reads and writes; a nil vector or
mask is `none`, as in a view fresh from `NewColumnView`. -/
structure ColumnView where
  Ts : Nat
  ColIdx : Nat
  RawVec : Option (List Value)
  AppliedVec : Option (List Value) := none
  DeleteMask : Option (List Nat) := none
deriving DecidableEq, Repr

/-- The calls `GetValue` makes on the delete chain, on a column chain and on the
base storage of the block. -/
inductive Access where
  | IsDeletedLocked (row ts : Nat)
  | GetValueLocked (col row ts : Nat)
  | getVectorCopy (ts col : Nat)
  | getVectorWrapper (col : Nat)
deriving DecidableEq, Repr

/-- The method `dataBlock.getVectorCopy` with `raw = true` and nil buffers, the
only way `GetValue` calls it. The result is `(view, err)`; `view` stays nil when
the node cannot be pinned, when no row is visible at `ts` or when
`GetMaxVisibleRowLocked` fails. -/
def getVectorCopy (blk : dataBlock) (ts : Nat) (colIdx : Nat) :
    Option ColumnView × Option Error :=
  match blk.node.pin with
  | some e => (none, some e)
  | none =>
    match blk.mvcc.GetMaxVisibleRowLocked ts with
    | (maxRow, visible, err) =>
      if visible = false ∨ err ≠ none then (none, err)
      else
        match blk.node.GetVectorCopy maxRow colIdx with
        | (vec, err) => (some { Ts := ts, ColIdx := colIdx, RawVec := vec }, err)

/-- The method `dataBlock.getVectorWrapper`: the wrapper is never nil; its vector
holds what `ReadFrom` left in it. -/
def getVectorWrapper (blk : dataBlock) (colIdx : Nat) : List Value × Option Error :=
  blk.file.ReadFrom colIdx

/-- Modelled from the spec: `compute.GetValue(vec, row)` of package `compute`,
which is not among the sources, reads the value at index `row` of the
vector; reading a nil vector, or past the end, is a run-time panic. -/
def computeGetValue (vec : Option (List Value)) (row : Nat) : Exec (Option Value) :=
  match vec with
  | none => Exec.panicked
  | some xs =>
    match xs[row]? with
    | none => Exec.panicked
    | some x => Exec.returned (some x)

/-- What a call of `GetValue` does: its result `(v, err)` or a panic, and the
calls it made, in order. -/
structure GetValueRun where
  result : Exec (Option Value × Option Error)
  log : List Access
deriving DecidableEq, Repr

/-- The expression `compute.GetValue(view.RawVec, row)` that ends `GetValue`:
dereferencing a nil `view` panics before the call. -/
def readRawVec (view : Option ColumnView) (row : Nat) : Exec (Option Value) :=
  match view with
  | none => Exec.panicked
  | some w => computeGetValue w.RawVec row

/-- The constructor `model.NewColumnView(ts, colIdx)`. -/
def NewColumnView (ts colIdx : Nat) : ColumnView :=
  { Ts := ts, ColIdx := colIdx, RawVec := none }

/-- The tail of `dataBlock.GetValue`, after the MVCC lock is released: the read
of the base storage. The error of `getVectorCopy` and of `getVectorWrapper` is
dropped, as in the source. -/
def GetValueBase (blk : dataBlock) (txn : AsyncTxn) (row col : Nat) (log : List Access) :
    GetValueRun :=
  let view := NewColumnView txn.StartTS col
  if blk.meta.IsAppendable = true then
    let view := (getVectorCopy blk txn.StartTS col).1
    let log := log ++ [Access.getVectorCopy txn.StartTS col]
    match readRawVec view row with
    | Exec.returned v => { result := Exec.returned (v, none), log := log }
    | Exec.panicked => { result := Exec.panicked, log := log }
  else
    let wrapper := (getVectorWrapper blk col).1
    let view := { view with RawVec := some wrapper }
    let log := log ++ [Access.getVectorWrapper col]
    match readRawVec (some view) row with
    | Exec.returned v => { result := Exec.returned (v, none), log := log }
    | Exec.panicked => { result := Exec.panicked, log := log }

/-- The method `dataBlock.GetValue`. -/
def GetValue (blk : dataBlock) (txn : AsyncTxn) (row col : Nat) : GetValueRun :=
  let ts := txn.StartTS
  let deleted := (blk.mvcc.IsDeletedLocked row ts).1
  let err := (blk.mvcc.IsDeletedLocked row ts).2
  let log := [Access.IsDeletedLocked row ts]
  if err ≠ none then
    { result := Exec.returned (none, err), log := log }
  else if deleted = false then
    let v := (blk.mvcc.GetValueLocked col row ts).1
    let err := (blk.mvcc.GetValueLocked col row ts).2
    let log := log ++ [Access.GetValueLocked col row ts]
    if err = some Error.TxnInternalErr then
      { result := Exec.returned (v, err), log := log }
    else
      let v := if err ≠ none then none else v
      if v ≠ none then
        { result := Exec.returned (v, none), log := log }
      else
        GetValueBase blk txn row col log
  else
    { result := Exec.returned (none, some Error.TxnErrNotFound), log := log }

/-- Modelled from the spec: a node of the delete chain, one inclusive range
`[start, stop]` with its commit timestamp (zero while uncommitted) and the
identity of the owning transaction (nil after commit). The chains live in
package `updates`, which is not among the sources. -/
structure DeleteNode where
  start : Nat
  stop : Nat
  commitTs : Nat
  txn : Option Nat := none
deriving DecidableEq, Repr

/-- Modelled from the spec: a node of a column chain, a mapping from row offset
to new value with its commit timestamp (zero while uncommitted) and the
identity of the owning transaction (nil after commit). -/
structure UpdateNode where
  commitTs : Nat
  vals : List (Nat × Value)
  txn : Option Nat := none
deriving DecidableEq, Repr

/-- Modelled from the spec: an entry of the append log, the row count reached by
an append and its commit timestamp. -/
structure AppendNode where
  commitTs : Nat
  maxRow : Nat
deriving DecidableEq, Repr

/-- Modelled from the spec: `IsDeleted(row, ts)` holds when some delete node
with commit-ts at most `ts` covers `row`. -/
def chainIsDeleted (deletes : List DeleteNode) (row ts : Nat) : Bool :=
  deletes.any (fun n => decide (n.commitTs ≠ 0 ∧ n.commitTs ≤ ts ∧ n.start ≤ row ∧ row ≤ n.stop))

/-- Modelled from the spec: `ColumnChain.GetValue(row, ts)` is the most recent
committed value of `row` with commit-ts at most `ts`, or none; the chain is in
commit order. -/
def chainGetValue (chain : List UpdateNode) (row ts : Nat) : Option Value :=
  chain.foldl
    (fun acc n =>
      if n.commitTs ≠ 0 ∧ n.commitTs ≤ ts then
        match n.vals.lookup row with
        | some x => some x
        | none => acc
      else acc)
    none

/-- Modelled from the spec: `maxVisibleRow(ts)` is the row count reached by the
last append whose commit-ts is at most `ts`; no such append means no row is
visible. -/
def chainMaxVisibleRow (appends : List AppendNode) (ts : Nat) : Nat × Bool × Option Error :=
  appends.foldl
    (fun acc n => if n.commitTs ≠ 0 ∧ n.commitTs ≤ ts then (n.maxRow, true, none) else acc)
    (0, false, none)

/-- Modelled from the spec: the delete mask collected at `ts` is the union of
the committed delete ranges with commit-ts at most `ts`; nil when there is
none. -/
def chainDeleteMask (deletes : List DeleteNode) (ts : Nat) : Option (List Nat) :=
  match deletes.filter (fun n => decide (n.commitTs ≠ 0 ∧ n.commitTs ≤ ts)) with
  | [] => none
  | ns => some (ns.flatMap (fun n => (List.range (n.stop + 1)).filter (fun r => decide (n.start ≤ r))))

/-- An MVCC handle over explicit chains, for the scenarios: one update chain per
column, the delete chain and the append log; a chain without a value answers
`txnbase.ErrNotFound`, a row is visible when it lies below `maxVisibleRow(ts)`.
The counters count nodes and rows of the chains. -/
def chainMVCC (columns : List (List UpdateNode)) (deletes : List DeleteNode)
    (appends : List AppendNode) (maxVisible : Nat) : MVCCHandle where
  GetChangeNodeCnt := (columns.map List.length).sum + deletes.length
  GetColumnUpdateCnt := fun i => ((columns.getD i []).map (fun n => n.vals.length)).sum
  GetDeleteCnt := (deletes.map (fun n => n.stop + 1 - n.start)).sum
  LoadMaxVisible := maxVisible
  IsDeletedLocked := fun row ts => (chainIsDeleted deletes row ts, none)
  GetValueLocked := fun col row ts =>
    match chainGetValue (columns.getD col []) row ts with
    | some x => (some x, none)
    | none => (none, some Error.TxnErrNotFound)
  GetMaxVisibleRowLocked := fun ts => chainMaxVisibleRow appends ts
  IsVisibleLocked := fun row ts =>
    (decide ((chainMaxVisibleRow appends ts).2.1 = true
      ∧ row < (chainMaxVisibleRow appends ts).1), none)
  CollectDeletesLocked := fun ts => (chainDeleteMask deletes ts, none)

/-- An appendable node holding the given columns: `GetVectorCopy maxRow col` is
the column cut to its first `maxRow` rows. -/
def memNode (data : List (List Value)) : appendableNode where
  Rows := (data.getD 0 []).length
  pin := none
  GetVectorCopy := fun maxRow col => (some ((data.getD col []).take maxRow), none)

/-- Scenario S1: an appendable block of at most 4 rows over the schema
(pk, v); T1 appended (1, 10) and (2, 20) and committed at 5. The chains are
those of the continuation at hand. -/
def s1Block (columns : List (List UpdateNode)) (deletes : List DeleteNode) : dataBlock where
  meta := { schema := { ColDefs := 2, PrimaryKey := 0, BlockMaxRows := 4 }, ID := 1,
            IsAppendable := true, IsDroppedCommitted := false,
            IsDroppedUncommitted := false, HasActiveTxn := false }
  node := memNode [[1, 2], [10, 20]]
  file := { ReadRows := 0, ReadFrom := fun _ => ([], none) }
  index := { active := [(1, 0), (2, 1)], deleted := [] }
  mvcc := chainMVCC columns deletes [{ commitTs := 5, maxRow := 2 }] 5
  nice := 0
  ckpTs := 0

/-- Scenario S1 as it stands after the commit of T1. -/
def s1Base : dataBlock :=
  s1Block [[], []] []

/-- Scenario S2: T3 updated row 0, column 1 to 11 and committed at 15. -/
def s2Block : dataBlock :=
  s1Block [[], [{ commitTs := 15, vals := [(0, 11)] }]] []

/-- Scenario S4: T8 deleted rows 0 to 0 and committed at 18. -/
def s4Block : dataBlock :=
  s1Block [[], []] [{ start := 0, stop := 0, commitTs := 18 }]

/-- The sealed block that scenario S5 leaves behind: the four rows live in the
column files. -/
def s5Block : dataBlock where
  meta := { schema := { ColDefs := 2, PrimaryKey := 0, BlockMaxRows := 4 }, ID := 2,
            IsAppendable := false, IsDroppedCommitted := false,
            IsDroppedUncommitted := false, HasActiveTxn := false }
  node := { Rows := 0, pin := none, GetVectorCopy := fun _ _ => (none, none) }
  file := { ReadRows := 4,
            ReadFrom := fun col => ([[1, 2, 3, 4], [10, 20, 30, 40]].getD col [], none) }
  index := { active := [], deleted := [] }
  mvcc := chainMVCC [[], []] [] [{ commitTs := 5, maxRow := 4 }] 5
  nice := 0
  ckpTs := 0

/-- An MVCC handle with the given counters, no delete and no chain value. -/
def counterMVCC (changes : Nat) (updates : List Nat) (deletes maxVisible : Nat) : MVCCHandle where
  GetChangeNodeCnt := changes
  GetColumnUpdateCnt := fun i => updates.getD i 0
  GetDeleteCnt := deletes
  LoadMaxVisible := maxVisible
  IsDeletedLocked := fun _ _ => (false, none)
  GetValueLocked := fun _ _ _ => (none, some Error.TxnErrNotFound)
  GetMaxVisibleRowLocked := fun _ => (0, false, none)
  IsVisibleLocked := fun _ _ => (false, none)
  CollectDeletesLocked := fun _ => (none, none)

/-- A block with `rows` rows (in the node and in the file alike) and the given
MVCC handle. -/
def scoringBlock (appendable : Bool) (rows maxRows cols : Nat) (mvcc : MVCCHandle)
    (nice : Nat) : dataBlock where
  meta := { schema := { ColDefs := cols, PrimaryKey := 0, BlockMaxRows := maxRows }, ID := 7,
            IsAppendable := appendable, IsDroppedCommitted := false,
            IsDroppedUncommitted := false, HasActiveTxn := false }
  node := { Rows := rows, pin := none, GetVectorCopy := fun _ _ => (none, none) }
  file := { ReadRows := rows, ReadFrom := fun _ => ([], none) }
  index := { active := [], deleted := [] }
  mvcc := mvcc
  nice := nice
  ckpTs := 0

/-- Scenario S6: a sealed block of 1000 rows and 3 columns with update counts
5, 100 and 0, 10 deletes and 3 change nodes. -/
def s6Block (nice : Nat) : dataBlock :=
  scoringBlock false 1000 4096 3 (counterMVCC 3 [5, 100, 0] 10 0) nice

/-- A full appendable block: 4 rows of 4, no MVCC change. -/
def fullABlock (nice : Nat) : dataBlock :=
  scoringBlock true 4 4 2 (counterMVCC 0 [] 0 0) nice

/-- An appendable block with 2 rows of 4 and no MVCC change. -/
def idleABlock (nice : Nat) : dataBlock :=
  scoringBlock true 2 4 2 (counterMVCC 0 [] 0 0) nice

/-- A sealed block with no MVCC change. -/
def idleBlock (nice : Nat) : dataBlock :=
  scoringBlock false 4 4 2 (counterMVCC 0 [] 0 0) nice

/-- A full appendable block whose drop is committed. -/
def droppedFullABlock (nice : Nat) : dataBlock :=
  { fullABlock nice with meta := { (fullABlock nice).meta with IsDroppedCommitted := true } }

/-- Scenario S6 on a block whose drop is committed. -/
def droppedS6Block (nice : Nat) : dataBlock :=
  { s6Block nice with meta := { (s6Block nice).meta with IsDroppedCommitted := true } }

/-- Scenario S6 on a block whose drop is pending. -/
def pendingDropS6Block (nice : Nat) : dataBlock :=
  { s6Block nice with meta := { (s6Block nice).meta with IsDroppedUncommitted := true } }

/-- An idle appendable block with a transaction active on its metadata. -/
def busyABlock : dataBlock :=
  { idleABlock 0 with meta := { (idleABlock 0).meta with HasActiveTxn := true } }

/-- The weight `w(f)` of scoring rule 4 in the words of the spec, on a float64
factor. -/
def floatWeight (f : F64) : F64 :=
  if F64.lt f F64.c0005 = true then F64.ofNat 10
  else if F64.lt f F64.c010 = true then F64.ofNat 20
  else F64.ofNat 40

/-- The factor `F` of scoring rule 4 in the words of the spec, evaluated in
float64: the terms `w(f_c) * f_c` are summed from the first column on, the sum
is divided by the number of columns and `deletes / rows * 50` is added. -/
def floatFactor (rows : Int) (cols : Nat) (updates : Nat → Nat) (deletes : Nat) : F64 :=
  F64.add
    (F64.div
      (((List.range cols).map (fun c =>
          F64.mul (floatWeight (F64.div (F64.ofNat (updates c)) (F64.ofInt rows)))
            (F64.div (F64.ofNat (updates c)) (F64.ofInt rows)))).foldl F64.add (F64.ofNat 0))
      (F64.ofNat cols))
    (F64.mul (F64.div (F64.ofNat deletes) (F64.ofInt rows)) (F64.ofNat 50))

/-- The score of scoring rule 4 evaluated in float64: `F * 100` converted to
`int`, raised to 1 when it is 0. -/
def floatRawScore (rows : Int) (cols : Nat) (updates : Nat → Nat) (deletes : Nat) : Int :=
  if F64.toInt (F64.mul (floatFactor rows cols updates deletes) (F64.ofNat 100)) = 0 then 1
  else F64.toInt (F64.mul (floatFactor rows cols updates deletes) (F64.ofNat 100))

/-- The float64 value `x` is finite and at most `B`. -/
def F64.Below (x : F64) (B : ℚ) : Prop :=
  ∃ m e, x = F64.finite m e ∧ (m : ℚ) * 2 ^ e ≤ B

/-- A sealed block of 1000 rows and one column with no update, 9 deletes and one
change node. -/
def nineDeletesBlock : dataBlock :=
  scoringBlock false 1000 4096 1 (counterMVCC 1 [0] 9 0) 0

/-- A sealed block without rows that has one column and one change node. -/
def noRowsBlock (nice : Nat) : dataBlock :=
  scoringBlock false 0 4096 1 (counterMVCC 1 [0] 0 0) nice

/-- The weight `w(f)` of scoring rule 4 in the words of the spec. -/
def specWeight (f : ℚ) : ℚ :=
  if f < 0.005 then 10 else if f < 0.10 then 20 else 40

/-- The factor `F` of scoring rule 4 in the words of the spec, in exact rational
arithmetic. -/
def specFactor (rows : Int) (cols : Nat) (updates : Nat → Nat) (deletes : Nat) : ℚ :=
  (1 / (cols : ℚ)) *
      ∑ c ∈ Finset.range cols,
        specWeight ((updates c : ℚ) / (rows : ℚ)) * ((updates c : ℚ) / (rows : ℚ))
    + 50 * (deletes : ℚ) / (rows : ℚ)

/-- The score of scoring rule 4 in the words of the spec, in exact rational
arithmetic. -/
def specRawScore (rows : Int) (cols : Nat) (updates : Nat → Nat) (deletes : Nat) : Int :=
  max 1 (truncToInt (100 * specFactor rows cols updates deletes))

/-- Modelled from the spec: the state behind an MVCC handle, one update chain
per schema column, the delete chain, the append log and `maxVisibleTs`. A
chain is the sequence of its nodes, uncommitted nodes at the tail. -/
structure MVCCChains where
  columns : List (List UpdateNode)
  deletes : List DeleteNode
  appends : List AppendNode
  maxVisible : Nat
deriving DecidableEq, Repr

/-- The read operations of the handle over the chains. -/
def MVCCChains.handle (m : MVCCChains) : MVCCHandle :=
  chainMVCC m.columns m.deletes m.appends m.maxVisible

/-- Modelled from the spec: `CheckNotDeleted(start, end, ts)` scans the delete
chain and answers AlreadyDeleted when a node that overlaps the range is
committed at or before `ts` or is uncommitted. The check receives the timestamp
only, so every uncommitted node counts as one of another transaction. -/
def MVCCChains.CheckNotDeleted (m : MVCCChains) (start stop ts : Nat) : Option Error :=
  if m.deletes.any (fun n =>
      decide ((n.commitTs = 0 ∨ n.commitTs ≤ ts)
        ∧ n.start ≤ n.stop ∧ n.start ≤ stop ∧ start ≤ n.stop)) then
    some Error.AlreadyDeleted
  else none

/-- Modelled from the spec: `CheckNotUpdated(start, end, ts)` has the structure
of `CheckNotDeleted` over the column chains and answers WriteConflict. -/
def MVCCChains.CheckNotUpdated (m : MVCCChains) (start stop ts : Nat) : Option Error :=
  if m.columns.any (fun chain => chain.any (fun n =>
      decide (n.commitTs = 0 ∨ n.commitTs ≤ ts)
        && n.vals.any (fun rv => decide (start ≤ rv.1 ∧ rv.1 ≤ stop)))) then
    some Error.WriteConflict
  else none

/-- Modelled from the spec: `ColumnChain.AddNodeLocked(txn)` allocates an empty
uncommitted node of `txn` and links it at the tail; the node is known by its
position in the chain. -/
def AddNodeLocked (chain : List UpdateNode) (txn : AsyncTxn) : List UpdateNode × Nat :=
  (chain ++ [{ commitTs := 0, vals := [], txn := some txn.ID }], chain.length)

/-- Modelled from the spec: `ColumnChain.TryUpdateNodeLocked(row, v, node)`
answers WriteConflict when another transaction has an uncommitted write for
the row in this chain; otherwise it records `row → v` in the node. -/
def TryUpdateNodeLocked (chain : List UpdateNode) (row : Nat) (v : Value) (node : Nat) :
    Option Error × List UpdateNode :=
  let owner := (chain[node]?).bind (fun n => n.txn)
  if chain.any (fun n =>
      decide (n.commitTs = 0 ∧ n.txn ≠ owner) && (n.vals.lookup row).isSome) then
    (some Error.WriteConflict, chain)
  else
    match chain[node]? with
    | some n => (none, chain.set node { n with vals := n.vals ++ [(row, v)] })
    | none => (none, chain)

/-- Modelled from the spec: `ColumnChain.DeleteNodeLocked(node)` unlinks the
node. -/
def DeleteNodeLocked (chain : List UpdateNode) (node : Nat) : List UpdateNode :=
  chain.eraseIdx node

/-- Modelled from the spec: `MVCCHandle.CreateDeleteNode(txn)` links a new
uncommitted delete node of `txn`, with an empty range (written `[1, 0]`), at the
tail of the delete chain; the node is known by its position. -/
def MVCCChains.CreateDeleteNode (m : MVCCChains) (txn : AsyncTxn) : MVCCChains × Nat :=
  ({ m with deletes := m.deletes ++ [{ start := 1, stop := 0, commitTs := 0, txn := some txn.ID }] },
    m.deletes.length)

/-- Modelled from the spec: `DeleteNode.RangeDeleteLocked(start, end)` makes the
node cover the inclusive range. -/
def MVCCChains.RangeDeleteLocked (m : MVCCChains) (node start stop : Nat) : MVCCChains :=
  match m.deletes[node]? with
  | some n => { m with deletes := m.deletes.set node { n with start := start, stop := stop } }
  | none => m

/-- The block as its write path uses it: the metadata and the chains behind
`blk.mvcc`. -/
structure chainBlock where
  meta : BlockEntry
  mvcc : MVCCChains
deriving DecidableEq, Repr

/-- What `Update` returns, `(node, err)`, and the chains it leaves. -/
structure UpdateRun where
  node : Option UpdateNode
  err : Option Error
  mvcc : MVCCChains
deriving DecidableEq, Repr

/-- The method `dataBlock.updateWithFineLock`. `GetColumnChain` of a column
without a chain is nil and locking it panics. -/
def updateWithFineLock (blk : chainBlock) (txn : AsyncTxn) (row colIdx : Nat) (v : Value) :
    Exec UpdateRun :=
  let err := blk.mvcc.CheckNotDeleted row row txn.StartTS
  if err = none then
    match blk.mvcc.columns[colIdx]? with
    | none => Exec.panicked
    | some chain =>
      let added := AddNodeLocked chain txn
      let tried := TryUpdateNodeLocked added.1 row v added.2
      if tried.1 ≠ none then
        let chain := DeleteNodeLocked tried.2 added.2
        Exec.returned
          { node := tried.2[added.2]?, err := tried.1,
            mvcc := { blk.mvcc with columns := blk.mvcc.columns.set colIdx chain } }
      else
        Exec.returned
          { node := tried.2[added.2]?, err := tried.1,
            mvcc := { blk.mvcc with columns := blk.mvcc.columns.set colIdx tried.2 } }
  else
    Exec.returned { node := none, err := err, mvcc := blk.mvcc }

/-- The method `dataBlock.Update`. -/
def Update (blk : chainBlock) (txn : AsyncTxn) (row colIdx : Nat) (v : Value) : Exec UpdateRun :=
  updateWithFineLock blk txn row colIdx v

/-- What `RangeDelete` returns, `(node, err)`, and the chains it leaves. -/
structure RangeDeleteRun where
  node : Option DeleteNode
  err : Option Error
  mvcc : MVCCChains
deriving DecidableEq, Repr

/-- The method `dataBlock.RangeDelete`. -/
def RangeDelete (blk : chainBlock) (txn : AsyncTxn) (start stop : Nat) : RangeDeleteRun :=
  let err := blk.mvcc.CheckNotDeleted start stop txn.StartTS
  if err = none then
    let err := blk.mvcc.CheckNotUpdated start stop txn.StartTS
    if err = none then
      let created := blk.mvcc.CreateDeleteNode txn
      let mvcc := created.1.RangeDeleteLocked created.2 start stop
      { node := mvcc.deletes[created.2]?, err := err, mvcc := mvcc }
    else
      { node := none, err := err, mvcc := blk.mvcc }
  else
    { node := none, err := err, mvcc := blk.mvcc }

/-- The chains of scenario S1 after the commit of T1. -/
def s1Chains : MVCCChains :=
  { columns := [[], []], deletes := [], appends := [{ commitTs := 5, maxRow := 2 }],
    maxVisible := 5 }

/-- Scenario S1 on its write path. -/
def s1Write : chainBlock :=
  { meta := s1Base.meta, mvcc := s1Chains }

/-- The sealed block of scenario S5 on its write path. -/
def s5Write : chainBlock :=
  { meta := s5Block.meta,
    mvcc := { columns := [[], []], deletes := [], appends := [{ commitTs := 5, maxRow := 4 }],
              maxVisible := 5 } }

/-- Scenario S3 after the update of T6 (identity 6, start-ts 10) on row 0,
column 1, still uncommitted. -/
def s3Write : chainBlock :=
  { meta := s1Base.meta,
    mvcc := { s1Chains with
              columns := [[], [{ commitTs := 0, vals := [(0, 11)], txn := some 6 }]] } }

/-- Scenario S4 after the commit of T8 at 18. -/
def s4Write : chainBlock :=
  { meta := s1Base.meta,
    mvcc := { s1Chains with deletes := [{ start := 0, stop := 0, commitTs := 18 }] } }

/-- The operators of `handle.Filter`; the block accepts equality only. -/
inductive FilterOp where
  | FilterEq
  | FilterOther
deriving DecidableEq, Repr

/-- A `handle.Filter`: an operator and the value probed. -/
structure Filter where
  Op : FilterOp
  Val : Value
deriving DecidableEq, Repr

/-- Modelled from the spec: `GetActiveRow(key)` of the mutable index returns the
active row offset of the key, or `data.ErrNotFound` with the zero offset. -/
def Index.GetActiveRow (idx : Index) (key : Value) : Nat × Option Error :=
  match idx.active.lookup key with
  | some row => (row, none)
  | none => (0, some Error.DataErrNotFound)

/-- Modelled from the spec: `IsKeyDeleted(key, ts)` of the mutable index returns
`(existed, deletedBefore ts)`: whether the key has a tombstone, and whether its
delete timestamp is at most `ts`. -/
def Index.IsKeyDeleted (idx : Index) (key : Value) (ts : Nat) : Bool × Bool :=
  match idx.deleted.lookup key with
  | some deleteTs => (true, decide (deleteTs ≤ ts))
  | none => (false, false)

/-- Modelled from the spec: `compute.CheckRowExists(vec, v, deleteMask)` scans the
column with an equality probe, skipping the rows of the delete mask, and
returns the first matching row and whether there is one. -/
def CheckRowExists (vec : List Value) (v : Value) (deleteMask : Option (List Nat)) :
    Nat × Bool :=
  match (List.range vec.length).find?
      (fun r => decide (vec[r]? = some v) && !((deleteMask.getD []).contains r)) with
  | some r => (r, true)
  | none => (0, false)

/-- The method `dataBlock.ablkGetByFilter`. The two results of `IsKeyDeleted` are
bound, in order, to the names `deleted` and `existed` of the source. -/
def ablkGetByFilter (blk : dataBlock) (ts : Nat) (filter : Filter) : Nat × Option Error :=
  let offset := (blk.index.GetActiveRow filter.Val).1
  let err := (blk.index.GetActiveRow filter.Val).2
  if err ≠ none ∧ err ≠ some Error.DataErrNotFound then
    (offset, err)
  else
    let checkDeleteMap : Nat × Option Error :=
      let deleted := (blk.index.IsKeyDeleted filter.Val ts).1
      let existed := (blk.index.IsKeyDeleted filter.Val ts).2
      if existed = false ∨ deleted = true then (offset, some Error.DataErrNotFound)
      else (offset, none)
    if err = none then
      let visible := (blk.mvcc.IsVisibleLocked offset ts).1
      let err := (blk.mvcc.IsVisibleLocked offset ts).2
      if err ≠ none then (offset, err)
      else if visible = true then
        let deleted := (blk.mvcc.IsDeletedLocked offset ts).1
        let err := (blk.mvcc.IsDeletedLocked offset ts).2
        if err ≠ none then (offset, err)
        else if deleted = true then (offset, some Error.DataErrNotFound)
        else (offset, err)
      else checkDeleteMap
    else checkDeleteMap

/-- The method `dataBlock.blkGetByFilter`. -/
def blkGetByFilter (blk : dataBlock) (ts : Nat) (filter : Filter) : Nat × Option Error :=
  let err := blk.index.Dedup filter.Val
  if err = none then (0, some Error.DataErrNotFound)
  else if err ≠ some Error.ErrPossibleDuplicate then (0, err)
  else
    let pkColumn := (getVectorWrapper blk blk.meta.schema.PrimaryKey).1
    let err := (getVectorWrapper blk blk.meta.schema.PrimaryKey).2
    if err ≠ none then (0, err)
    else
      let offset := (CheckRowExists pkColumn filter.Val none).1
      let existed := (CheckRowExists pkColumn filter.Val none).2
      if existed = false then (offset, some Error.TxnErrNotFound)
      else
        let deleted := (blk.mvcc.IsDeletedLocked offset ts).1
        let err := (blk.mvcc.IsDeletedLocked offset ts).2
        if err ≠ none then (offset, err)
        else if deleted = true then (offset, some Error.DataErrNotFound)
        else (offset, err)

/-- The method `dataBlock.GetByFilter`; a filter that is no equality is a logic
error and panics. -/
def GetByFilter (blk : dataBlock) (txn : AsyncTxn) (filter : Filter) :
    Exec (Nat × Option Error) :=
  if filter.Op ≠ FilterOp.FilterEq then Exec.panicked
  else if blk.meta.IsAppendable = true then
    Exec.returned (ablkGetByFilter blk txn.StartTS filter)
  else
    Exec.returned (blkGetByFilter blk txn.StartTS filter)

/-- Scenario S4 with its index: T8 deleted row 1 (key 2) and committed at 18, so
key 2 moved from the active map to the tombstones with timestamp 18. -/
def s4KeyBlock : dataBlock :=
  { s1Block [[], []] [{ start := 1, stop := 1, commitTs := 18 }] with
    index := { active := [(1, 0)], deleted := [(2, 18)] } }

/-- Modelled from the spec: `compute.ProcessVector(vec, 0, len, op, keyselects)`
applies `op` to the values of `vec` at the selected positions, in order, and
stops at the first error; a position past the end is skipped. -/
def ProcessVector (vec : List Value) (op : Value → Nat → Option Error) :
    List Nat → Option Error
  | [] => none
  | i :: keyselects =>
    match vec[i]? with
    | some v =>
      match op v i with
      | some e => some e
      | none => ProcessVector vec op keyselects
    | none => ProcessVector vec op keyselects

/-- The method `dataBlock.FillColumnDeletes`: the view afterwards and the
error. -/
def FillColumnDeletes (blk : dataBlock) (view : ColumnView) : ColumnView × Option Error :=
  let dnode := (blk.mvcc.CollectDeletesLocked view.Ts).1
  let err := (blk.mvcc.CollectDeletesLocked view.Ts).2
  if err ≠ none then (view, err)
  else
    match dnode with
    | some mask => ({ view with DeleteMask := some mask }, err)
    | none => (view, err)

/-- The method `dataBlock.GetPKColumnDataOptimized`: `(view, err)`, the view nil
when the column cannot be read. -/
def GetPKColumnDataOptimized (blk : dataBlock) (ts : Nat) : Option ColumnView × Option Error :=
  let pkIdx := blk.meta.schema.PrimaryKey
  let wrapper := (getVectorWrapper blk pkIdx).1
  let err := (getVectorWrapper blk pkIdx).2
  if err ≠ none then (none, err)
  else
    let view := NewColumnView ts pkIdx
    let view := { view with RawVec := some wrapper }
    let filled := FillColumnDeletes blk view
    if filled.2 ≠ none then (some filled.1, filled.2)
    else (some { filled.1 with AppliedVec := filled.1.RawVec }, filled.2)

/-- The method `dataBlock.BatchDedup`: the error returned, or a panic. -/
def BatchDedup (blk : dataBlock) (txn : AsyncTxn) (pks : List Value)
    (rowmask : Option (List Nat)) : Exec (Option Error) :=
  if blk.meta.IsAppendable = true then
    Exec.returned (blk.index.BatchDedup pks rowmask).2
  else
    let keyselects := (blk.index.BatchDedup pks rowmask).1
    let err := (blk.index.BatchDedup pks rowmask).2
    if err = none then Exec.returned err
    else
      match keyselects with
      | none => Exec.panicked
      | some keyselects =>
        let view := (GetPKColumnDataOptimized blk txn.StartTS).1
        let err := (GetPKColumnDataOptimized blk txn.StartTS).2
        if err ≠ none then Exec.returned err
        else
          match view with
          | none => Exec.panicked
          | some view =>
            match view.AppliedVec with
            | none => Exec.panicked
            | some applied =>
              let deduplicate : Value → Nat → Option Error := fun v _ =>
                if (CheckRowExists applied v view.DeleteMask).2 = true then
                  some Error.ErrDuplicated
                else none
              Exec.returned (ProcessVector pks deduplicate keyselects)

/-- The sealed block of scenario S5 with row 1 (key 2) deleted at 18 and an
index that names the given candidates for every batch. -/
def s5DedupBlock (keyselects : List Nat) : dataBlock :=
  { s5Block with
    index := { active := [], deleted := [],
               BatchDedup := fun _ _ => (some keyselects, some Error.ErrPossibleDuplicate) },
    mvcc := chainMVCC [[], []] [{ start := 1, stop := 1, commitTs := 18 }]
      [{ commitTs := 5, maxRow := 4 }] 5 }

/-- The block `s5DedupBlock` when the read of the column files fails. -/
def s5UnreadableBlock (keyselects : List Nat) : dataBlock :=
  { s5DedupBlock keyselects with
    file := { ReadRows := 4, ReadFrom := fun _ => ([], some (Error.Other 5)) } }

/-- The file types of a part's virtual file that `ForceLoad` tells apart:
`common.MemFile` and any other. -/
inductive FileType where
  | MemFile
  | OtherFile
deriving DecidableEq, Repr

/-- The view that `IVector.GetLatestView()` hands out, by its
`CopyToVectorWithProc(ref, proc)`. -/
structure IVectorView where
  CopyToVectorWithProc : Nat → Option (List Value) × Option Error

/-- The vector behind a part's buffer handle, by the operations `ForceLoad`
calls on it. -/
structure IVector where
  IsReadonly : Bool
  Length : Nat
  GetLatestView : IVectorView
  CopyToVectorWithProc : Nat → Option (List Value) × Option Error

/-- A `columnPart`: the file type of its virtual file, its vector and what
`wrapper.ReadWithProc(part.VFile, ref, proc)` leaves in the wrapper's vector,
with its error. -/
structure columnPart where
  GetFileType : FileType
  GetVector : IVector
  ReadWithProc : Nat → List Value × Option Error

/-- What `ForceLoad` returns, `(vector, err)`, and whether it closed the vector
it took from the buffer. -/
structure ForceLoadRun where
  vec : Option (List Value)
  err : Option Error
  closed : Bool
deriving DecidableEq, Repr

/-- The method `columnPart.loadFromDisk`. -/
def loadFromDisk (part : columnPart) (ref : Nat) : Option (List Value) × Option Error :=
  let err := (part.ReadWithProc ref).2
  if err ≠ none then (none, err)
  else (some (part.ReadWithProc ref).1, none)

/-- The package variable `defalutPartLoadFunc`, set to `loadFromDisk` by
`init`. -/
def defalutPartLoadFunc (part : columnPart) : Nat → Option (List Value) × Option Error :=
  loadFromDisk part

/-- The method `columnPart.ForceLoad`. -/
def ForceLoad (part : columnPart) (ref : Nat) : ForceLoadRun :=
  if part.GetFileType = FileType.MemFile then
    let vec := part.GetVector
    if vec.IsReadonly = false then
      if vec.Length = 0 then
        { vec := some [], err := none, closed := true }
      else
        let view := vec.GetLatestView
        { vec := (view.CopyToVectorWithProc ref).1, err := (view.CopyToVectorWithProc ref).2,
          closed := true }
    else
      { vec := (vec.CopyToVectorWithProc ref).1, err := (vec.CopyToVectorWithProc ref).2,
        closed := true }
  else
    { vec := (defalutPartLoadFunc part ref).1, err := (defalutPartLoadFunc part ref).2,
      closed := false }

/-- A memory-backed part over a vector of three values whose latest view shows
the first two; its memory file holds no serialized column, so a decode of the
file fails. -/
def memPart (readonly : Bool) : columnPart where
  GetFileType := FileType.MemFile
  GetVector :=
    { IsReadonly := readonly, Length := 3,
      GetLatestView := { CopyToVectorWithProc := fun _ => (some [1, 2], none) },
      CopyToVectorWithProc := fun _ => (some [1, 2, 3], none) }
  ReadWithProc := fun _ => ([], some (Error.Other 1))

/-- A persistent part whose file decodes to four values. -/
def diskPart : columnPart where
  GetFileType := FileType.OtherFile
  GetVector :=
    { IsReadonly := true, Length := 0,
      GetLatestView := { CopyToVectorWithProc := fun _ => (none, some (Error.Other 2)) },
      CopyToVectorWithProc := fun _ => (none, some (Error.Other 2)) }
  ReadWithProc := fun _ => ([1, 2, 3, 4], none)

/-- Modelled from the spec: the schema names one primary-key column, and
`Schema.IsPartOfPK(idx)` holds for that column. -/
def Schema.IsPartOfPK (schema : Schema) (idx : Nat) : Bool :=
  decide (idx = schema.PrimaryKey)

/-- A batch: one vector of values per column. -/
abbrev Batch := List (List (Option Value))

/-- The calls `UpdateByFilter` makes on its table. -/
inductive TableCall where
  | GetByFilter (filter : Filter)
  | GetValue (id row col : Nat)
  | Update (id row col : Nat) (v : Value)
  | RangeDelete (id start stop : Nat)
  | Append (bat : Batch)
deriving DecidableEq, Repr

/-- The operations of `txnTable` that `UpdateByFilter` calls, by their results:
`GetByFilter` gives `(id, row, err)`, `GetValue id row col` gives `(v, err)`,
the others an error. -/
structure txnTable where
  schema : Schema
  GetByFilter : Filter → Nat × Nat × Option Error
  GetValue : Nat → Nat → Nat → Option Value × Option Error
  Update : Nat → Nat → Nat → Value → Option Error
  RangeDelete : Nat → Nat → Nat → Option Error
  Append : Batch → Option Error

/-- Modelled from the spec: `catalog.MockData(schema, 0)` is a batch of no rows
with one vector per column. -/
def MockData (schema : Schema) : Batch :=
  List.replicate schema.ColDefs []

/-- Modelled from the spec: `compute.AppendValue(bat.Vecs[i], v)` appends the
value to vector `i` of the batch. -/
def AppendValue (bat : Batch) (i : Nat) (v : Option Value) : Batch :=
  bat.set i (bat.getD i [] ++ [v])

/-- The loop of `UpdateByFilter` over the columns: it reads the current value
of each column of the row and appends it to the batch, and stops at the first
error. The result is the error, the batch and the calls made. -/
def fillBatch (table : txnTable) (id row : Nat) :
    List Nat → Batch → List TableCall → Option Error × Batch × List TableCall
  | [], bat, calls => (none, bat, calls)
  | i :: rest, bat, calls =>
    let colVal := (table.GetValue id row (i % 65536)).1
    let err := (table.GetValue id row (i % 65536)).2
    let calls := calls ++ [TableCall.GetValue id row (i % 65536)]
    if err ≠ none then (err, bat, calls)
    else fillBatch table id row rest (AppendValue bat i colVal) calls

/-- The method `txnRelation.UpdateByFilter`: the error returned and the calls
made on the table, in order. -/
def UpdateByFilter (table : txnTable) (filter : Filter) (col : Nat) (v : Value) :
    Option Error × List TableCall :=
  let id := (table.GetByFilter filter).1
  let row := (table.GetByFilter filter).2.1
  let err := (table.GetByFilter filter).2.2
  let calls := [TableCall.GetByFilter filter]
  if err ≠ none then (err, calls)
  else
    let schema := table.schema
    if schema.IsPartOfPK col = false then
      (table.Update id row col v, calls ++ [TableCall.Update id row col v])
    else
      let bat := MockData schema
      let filled := fillBatch table id row (List.range schema.ColDefs) bat calls
      if filled.1 ≠ none then (filled.1, filled.2.2)
      else
        let calls := filled.2.2 ++ [TableCall.RangeDelete id row row]
        let err := table.RangeDelete id row row
        if err ≠ none then (err, calls)
        else (table.Append filled.2.1, calls ++ [TableCall.Append filled.2.1])

/-- The table of scenario S1, block 1 holding the rows (1, 10) and (2, 20);
every write succeeds. -/
def s1Table : txnTable where
  schema := { ColDefs := 2, PrimaryKey := 0, BlockMaxRows := 4 }
  GetByFilter := fun filter =>
    match [(1, 0), (2, 1)].lookup filter.Val with
    | some row => (1, row, none)
    | none => (0, 0, some Error.DataErrNotFound)
  GetValue := fun _ row col =>
    match ([[1, 2], [10, 20]].getD col [])[row]? with
    | some x => (some x, none)
    | none => (none, some Error.TxnErrNotFound)
  Update := fun _ _ _ _ => none
  RangeDelete := fun _ _ _ => none
  Append := fun _ => none

/-- Scenario S1 when `GetMaxVisibleRowLocked` fails. -/
def s1BrokenBlock : dataBlock :=
  { s1Base with
    mvcc := { s1Base.mvcc with GetMaxVisibleRowLocked := fun _ => (0, false, some (Error.Other 3)) } }

/-! Arithmetic of the weighted score. -/

/-- Truncation of a non-negative rational lying in `[n, n + 1)` is `n`. -/
theorem truncToInt_eq_of_le_of_lt (x : ℚ) (n : Int) (h0 : 0 ≤ x) (h1 : (n : ℚ) ≤ x)
    (h2 : x < n + 1) : truncToInt x = n := by
  unfold truncToInt
  rw [if_pos h0, Int.floor_eq_iff]
  exact ⟨h1, h2⟩

/-- The float64 nearest to 0.005. -/
theorem c0005_eq : F64.c0005 = F64.finite 5764607523034235 (-60) := by
  decide

/-- The float64 nearest to 0.10. -/
theorem c010_eq : F64.c010 = F64.finite 7205759403792794 (-56) := by
  decide

/-- Float64 multiplication of finite or infinite values commutes. -/
theorem F64.mul_comm (a b : F64) : F64.mul a b = F64.mul b a := by
  cases a <;> cases b <;> simp [F64.mul, Nat.mul_comm, Int.add_comm]

/-- Against a finite value, `>=` is the negation of `<` unless the left operand
is NaN. -/
theorem F64.ge_finite (a : F64) (m : Nat) (e : Int) (ha : a ≠ F64.nan) :
    F64.ge a (F64.finite m e) = !F64.lt a (F64.finite m e) := by
  cases a with
  | finite m1 e1 =>
    simp only [F64.ge, F64.lt]
    by_cases h : m1 * 2 ^ (e1 - min e1 e).toNat < m * 2 ^ (e - min e1 e).toNat
    · simp [h]
    · simp [h, Nat.le_of_not_lt h]
  | inf => rfl
  | nan => exact absurd rfl ha

/-- The branches of the source multiply the column factor by the weight of the
spec. -/
theorem weighColFactor_eq (f : F64) : weighColFactor f = F64.mul (floatWeight f) f := by
  unfold weighColFactor floatWeight
  by_cases hn : f = F64.nan
  · subst hn
    rfl
  · rw [c0005_eq, c010_eq, F64.ge_finite f _ _ hn, F64.ge_finite f _ _ hn]
    by_cases h1 : F64.lt f (F64.finite 5764607523034235 (-60)) = true
    · simp [h1, F64.mul_comm]
    · by_cases h2 : F64.lt f (F64.finite 7205759403792794 (-56)) = true
      · simp [h1, h2, F64.mul_comm]
      · simp [h1, h2, F64.mul_comm]

/-- The loop over the columns counts them and folds their weighted factors. -/
theorem foldl_colFactorStep (blk : dataBlock) (rows : Int) (n : Nat) :
    (List.range n).foldl (colFactorStep blk rows) (0, F64.ofNat 0)
      = ((n : Int),
         ((List.range n).map (fun c =>
            weighColFactor (F64.div (F64.ofNat (blk.mvcc.GetColumnUpdateCnt (c % 65536)))
              (F64.ofInt rows)))).foldl F64.add (F64.ofNat 0)) := by
  induction n with
  | zero => rfl
  | succ k ih =>
    rw [List.range_succ, List.foldl_append, ih, List.map_append, List.foldl_append]
    simp only [List.foldl_cons, List.foldl_nil, colFactorStep, List.map_cons, List.map_nil,
      Nat.cast_succ]

/-- The score on the weighted path: the conversion of the factor times 100,
raised to 1 when it is 0. -/
theorem estimateRawScore_weighted (blk : dataBlock)
    (h1 : ¬(blk.Rows = (blk.meta.schema.BlockMaxRows : Int) ∧ blk.meta.IsAppendable = true))
    (h2 : ¬(blk.mvcc.GetChangeNodeCnt = 0 ∧ blk.meta.IsAppendable = false))
    (h3 : ¬(blk.mvcc.GetChangeNodeCnt = 0 ∧ blk.meta.IsAppendable = true
      ∧ blk.mvcc.LoadMaxVisible ≤ blk.GetMaxCheckpointTS)) :
    estimateRawScore blk
      = floatRawScore blk.Rows blk.meta.schema.ColDefs
          (fun c => blk.mvcc.GetColumnUpdateCnt (c % 65536)) blk.mvcc.GetDeleteCnt := by
  unfold estimateRawScore
  rw [if_neg h1, if_neg h2, if_neg h3]
  simp only [foldl_colFactorStep, weighColFactor_eq]
  unfold floatRawScore floatFactor F64.ofInt
  simp only [zero_add, Int.toNat_ofNat]
  split_ifs with h0
  · rw [h0]
    rfl
  · rfl

/-- With enough fuel `log2Fuel` is the position of the leading bit. -/
theorem log2Fuel_spec (fuel : Nat) : ∀ n : Nat, n ≤ fuel → n ≠ 0 →
    2 ^ log2Fuel fuel n ≤ n ∧ n < 2 ^ (log2Fuel fuel n + 1) := by
  induction fuel with
  | zero =>
    intro n h hn
    omega
  | succ f ih =>
    intro n h hn
    unfold log2Fuel
    by_cases h2 : n < 2
    · rw [if_pos h2]
      simp
      omega
    · rw [if_neg h2]
      have hd : n / 2 ≤ f := by omega
      have hd0 : n / 2 ≠ 0 := by omega
      obtain ⟨ha, hb⟩ := ih (n / 2) hd hd0
      constructor
      · rw [pow_succ]
        omega
      · rw [pow_succ]
        omega

/-- For `n > 0`, `ilog2 n` is the position of the leading bit of `n`. -/
theorem ilog2_spec (n : Nat) (hn : n ≠ 0) : 2 ^ ilog2 n ≤ n ∧ n < 2 ^ (ilog2 n + 1) :=
  log2Fuel_spec n n (le_refl n) hn

/-- A value below `2 ^ 1024` does not overflow. -/
theorem checked_finite (m : Nat) (e : Int) (h : (m : ℚ) * 2 ^ e < 2 ^ (1024 : ℤ)) :
    F64.checked m e = F64.finite m e := by
  unfold F64.checked
  rw [if_neg]
  rintro ⟨hm, hge⟩
  have h1 : ((2 : ℚ) ^ (ilog2 m : ℤ)) ≤ (m : ℚ) := by
    rw [zpow_natCast]
    exact_mod_cast (ilog2_spec m hm).1
  have h2 : (2 : ℚ) ^ ((ilog2 m : ℤ) + e) ≤ (m : ℚ) * 2 ^ e := by
    rw [zpow_add₀ (by norm_num : (2 : ℚ) ≠ 0)]
    exact mul_le_mul_of_nonneg_right h1 (zpow_nonneg (by norm_num) _)
  have h3 : (2 : ℚ) ^ ((ilog2 m : ℤ) + e) < 2 ^ (1024 : ℤ) := lt_of_le_of_lt h2 h
  have h4 := (zpow_lt_zpow_iff_right₀ (by norm_num : (1 : ℚ) < 2)).1 h3
  omega

/-- Rounding `x = M * 2 ^ E` gives a finite value of at most
`x + x / 2 ^ 52 + 1`. -/
theorem roundMant_below (M : Nat) (E : Int) (h : (M : ℚ) * 2 ^ E < 2 ^ (1000 : ℤ)) :
    F64.Below (F64.roundMant M E) ((M : ℚ) * 2 ^ E + (M : ℚ) * 2 ^ E / 2 ^ 52 + 1) := by
  have hX : (0 : ℚ) ≤ (M : ℚ) * 2 ^ E := mul_nonneg (Nat.cast_nonneg _) (zpow_nonneg (by norm_num) _)
  have h1000 : (2 : ℚ) ^ (1000 : ℤ) < 2 ^ (1024 : ℤ) :=
    zpow_lt_zpow_right₀ (by norm_num) (by norm_num)
  unfold F64.roundMant
  by_cases hM : M = 0
  · rw [if_pos hM]
    refine ⟨0, 0, rfl, ?_⟩
    simp only [Nat.cast_zero, zero_mul]
    positivity
  · rw [if_neg hM]
    simp only []
    by_cases hk : max ((ilog2 M : ℤ) + 1 - 53) (-1074 - E) ≤ 0
    · rw [if_pos hk, checked_finite M E (lt_trans h h1000)]
      refine ⟨M, E, rfl, ?_⟩
      have : (0 : ℚ) ≤ (M : ℚ) * 2 ^ E / 2 ^ 52 := by positivity
      linarith
    · rw [if_neg hk]
      obtain ⟨k, hkdef⟩ : ∃ k : ℤ, k = max ((ilog2 M : ℤ) + 1 - 53) (-1074 - E) := ⟨_, rfl⟩
      rw [← hkdef] at hk ⊢
      have hkpos : 0 < k := not_le.1 hk
      obtain ⟨kn, hkn⟩ : ∃ kn : ℕ, k = (kn : ℤ) := ⟨k.toNat, (Int.toNat_of_nonneg hkpos.le).symm⟩
      have hkt : k.toNat = kn := by omega
      rw [hkt]
      obtain ⟨m, hmdef, hmle⟩ : ∃ m : ℕ,
          m = (if M % 2 ^ kn > 2 ^ (kn - 1) ∨ (M % 2 ^ kn = 2 ^ (kn - 1) ∧ M / 2 ^ kn % 2 = 1)
            then M / 2 ^ kn + 1 else M / 2 ^ kn) ∧ m ≤ M / 2 ^ kn + 1 := by
        refine ⟨_, rfl, ?_⟩
        split_ifs <;> omega
      rw [← hmdef]
      have h2E : (0 : ℚ) < 2 ^ E := zpow_pos (by norm_num) _
      have h2k : (2 : ℚ) ^ k = ((2 ^ kn : ℕ) : ℚ) := by
        rw [hkn, zpow_natCast]
        push_cast
        rfl
      have hq : ((M / 2 ^ kn : ℕ) : ℚ) * ((2 ^ kn : ℕ) : ℚ) ≤ (M : ℚ) := by
        exact_mod_cast Nat.div_mul_le_self M (2 ^ kn)
      have hval : (m : ℚ) * 2 ^ (E + k) ≤ (M : ℚ) * 2 ^ E + 2 ^ (E + k) := by
        have hm1 : (m : ℚ) ≤ ((M / 2 ^ kn : ℕ) : ℚ) + 1 := by exact_mod_cast hmle
        have hpos : (0 : ℚ) < 2 ^ (E + k) := zpow_pos (by norm_num) _
        have e1 : (2 : ℚ) ^ (E + k) = 2 ^ E * ((2 ^ kn : ℕ) : ℚ) := by
          rw [zpow_add₀ (by norm_num : (2 : ℚ) ≠ 0), h2k]
        calc (m : ℚ) * 2 ^ (E + k) ≤ (((M / 2 ^ kn : ℕ) : ℚ) + 1) * 2 ^ (E + k) :=
              mul_le_mul_of_nonneg_right hm1 hpos.le
          _ = ((M / 2 ^ kn : ℕ) : ℚ) * ((2 ^ kn : ℕ) : ℚ) * 2 ^ E + 2 ^ (E + k) := by
              rw [e1]; ring
          _ ≤ (M : ℚ) * 2 ^ E + 2 ^ (E + k) := by
              have := mul_le_mul_of_nonneg_right hq h2E.le
              linarith
      have hulp : (2 : ℚ) ^ (E + k) ≤ (M : ℚ) * 2 ^ E / 2 ^ 52 + 1 := by
        rcases max_choice ((ilog2 M : ℤ) + 1 - 53) (-1074 - E) with hc | hc
        · have hk1 : E + k = E + (ilog2 M : ℤ) + (-52) := by rw [hkdef, hc]; ring
          have hlog : ((2 : ℚ) ^ (ilog2 M : ℤ)) ≤ (M : ℚ) := by
            rw [zpow_natCast]
            exact_mod_cast (ilog2_spec M hM).1
          rw [hk1, zpow_add₀ (by norm_num : (2 : ℚ) ≠ 0), zpow_add₀ (by norm_num : (2 : ℚ) ≠ 0)]
          have e52 : (2 : ℚ) ^ (-52 : ℤ) = 1 / 2 ^ 52 := by
            rw [zpow_neg]
            norm_num
          rw [e52]
          have hmul : (2 : ℚ) ^ E * 2 ^ (ilog2 M : ℤ) ≤ (M : ℚ) * 2 ^ E := by
            rw [mul_comm]
            exact mul_le_mul_of_nonneg_right hlog h2E.le
          have : (2 : ℚ) ^ E * 2 ^ (ilog2 M : ℤ) * (1 / 2 ^ 52) ≤ (M : ℚ) * 2 ^ E / 2 ^ 52 := by
            rw [mul_one_div]
            exact div_le_div_of_nonneg_right hmul (by positivity)
          linarith
        · have hk1 : E + k = -1074 := by rw [hkdef, hc]; ring
          rw [hk1]
          have : (2 : ℚ) ^ (-1074 : ℤ) ≤ 2 ^ (0 : ℤ) :=
            zpow_le_zpow_right₀ (by norm_num) (by norm_num)
          have h0 : (0 : ℚ) ≤ (M : ℚ) * 2 ^ E / 2 ^ 52 := by positivity
          simp only [zpow_zero] at this
          linarith
      have hfin : (m : ℚ) * 2 ^ (E + k) < 2 ^ (1024 : ℤ) := by
        have hb : (M : ℚ) * 2 ^ E / 2 ^ 52 ≤ (M : ℚ) * 2 ^ E :=
          div_le_self hX (by norm_num)
        have h1001 : (2 : ℚ) ^ (1000 : ℤ) * 2 + 1 + 1 ≤ 2 ^ (1024 : ℤ) := by
          norm_num
        linarith
      rw [checked_finite m (E + k) hfin]
      exact ⟨m, E + k, rfl, by linarith⟩

/-- A bound may be raised. -/
theorem F64.Below.mono {x : F64} {A B : ℚ} (h : F64.Below x A) (hAB : A ≤ B) : F64.Below x B := by
  obtain ⟨m, e, hx, hv⟩ := h
  exact ⟨m, e, hx, le_trans hv hAB⟩

/-- A bound of a float64 value of the model is not negative. -/
theorem F64.Below.nonneg {x : F64} {A : ℚ} (h : F64.Below x A) : 0 ≤ A := by
  obtain ⟨m, e, _, hv⟩ := h
  exact le_trans (mul_nonneg (Nat.cast_nonneg _) (zpow_nonneg (by norm_num) _)) hv

/-- The conversion of an integer below `2 ^ 53` is exact. -/
theorem ofNat_exact (n : Nat) (h : n < 2 ^ 53) : F64.ofNat n = F64.finite n 0 := by
  unfold F64.ofNat F64.roundMant
  by_cases hn : n = 0
  · rw [if_pos hn, hn]
  · rw [if_neg hn]
    simp only []
    have hlog : ilog2 n < 53 := by
      have h1 := (ilog2_spec n hn).1
      have h2 : 2 ^ ilog2 n < 2 ^ 53 := lt_of_le_of_lt h1 h
      exact (Nat.pow_lt_pow_iff_right (by norm_num)).1 h2
    have hk : max ((ilog2 n : ℤ) + 1 - 53) (-1074 - 0) ≤ 0 := by
      apply max_le <;> omega
    rw [if_pos hk]
    unfold F64.checked
    rw [if_neg]
    rintro ⟨_, hge⟩
    omega

/-- The conversion of an integer below `2 ^ 53` is bounded by it. -/
theorem ofNat_below (n : Nat) (h : n < 2 ^ 53) : F64.Below (F64.ofNat n) n := by
  rw [ofNat_exact n h]
  exact ⟨n, 0, rfl, by simp⟩

/-- A bound of a float64 sum. -/
theorem add_below {a b : F64} {A B : ℚ} (ha : F64.Below a A) (hb : F64.Below b B)
    (h : A + B < 2 ^ (1000 : ℤ)) :
    F64.Below (F64.add a b) ((A + B) + (A + B) / 2 ^ 52 + 1) := by
  obtain ⟨m1, e1, rfl, h1⟩ := ha
  obtain ⟨m2, e2, rfl, h2⟩ := hb
  unfold F64.add
  simp only []
  have hval : ((m1 * 2 ^ (e1 - min e1 e2).toNat + m2 * 2 ^ (e2 - min e1 e2).toNat : ℕ) : ℚ)
      * 2 ^ (min e1 e2) = (m1 : ℚ) * 2 ^ e1 + (m2 : ℚ) * 2 ^ e2 := by
    have hz : (2 : ℚ) ≠ 0 := by norm_num
    have ha1 : ((e1 - min e1 e2).toNat : ℤ) = e1 - min e1 e2 :=
      Int.toNat_of_nonneg (by have := min_le_left e1 e2; omega)
    have ha2 : ((e2 - min e1 e2).toNat : ℤ) = e2 - min e1 e2 :=
      Int.toNat_of_nonneg (by have := min_le_right e1 e2; omega)
    push_cast
    rw [add_mul, mul_assoc, mul_assoc, ← zpow_natCast (2 : ℚ) (e1 - min e1 e2).toNat,
      ← zpow_natCast (2 : ℚ) (e2 - min e1 e2).toNat, ha1, ha2, ← zpow_add₀ hz, ← zpow_add₀ hz]
    congr 3 <;> ring
  have hle : ((m1 * 2 ^ (e1 - min e1 e2).toNat + m2 * 2 ^ (e2 - min e1 e2).toNat : ℕ) : ℚ)
      * 2 ^ (min e1 e2) ≤ A + B := by
    rw [hval]
    linarith
  refine (roundMant_below _ _ (lt_of_le_of_lt hle h)).mono ?_
  have : ((m1 * 2 ^ (e1 - min e1 e2).toNat + m2 * 2 ^ (e2 - min e1 e2).toNat : ℕ) : ℚ)
      * 2 ^ (min e1 e2) / 2 ^ 52 ≤ (A + B) / 2 ^ 52 :=
    div_le_div_of_nonneg_right hle (by positivity)
  linarith

/-- A bound of a float64 product. -/
theorem mul_below {a b : F64} {A B : ℚ} (ha : F64.Below a A) (hb : F64.Below b B)
    (h : A * B < 2 ^ (1000 : ℤ)) :
    F64.Below (F64.mul a b) (A * B + A * B / 2 ^ 52 + 1) := by
  have hA := ha.nonneg
  obtain ⟨m1, e1, rfl, h1⟩ := ha
  obtain ⟨m2, e2, rfl, h2⟩ := hb
  unfold F64.mul
  simp only []
  have hval : ((m1 * m2 : ℕ) : ℚ) * 2 ^ (e1 + e2) = ((m1 : ℚ) * 2 ^ e1) * ((m2 : ℚ) * 2 ^ e2) := by
    push_cast
    rw [zpow_add₀ (by norm_num : (2 : ℚ) ≠ 0)]
    ring
  have hv2 : (0 : ℚ) ≤ (m2 : ℚ) * 2 ^ e2 :=
    mul_nonneg (Nat.cast_nonneg _) (zpow_nonneg (by norm_num) _)
  have hle : ((m1 * m2 : ℕ) : ℚ) * 2 ^ (e1 + e2) ≤ A * B := by
    rw [hval]
    exact mul_le_mul h1 h2 hv2 hA
  refine (roundMant_below _ _ (lt_of_le_of_lt hle h)).mono ?_
  have : ((m1 * m2 : ℕ) : ℚ) * 2 ^ (e1 + e2) / 2 ^ 52 ≤ A * B / 2 ^ 52 :=
    div_le_div_of_nonneg_right hle (by positivity)
  linarith

/-- The conversion to `int` of a value below `2 ^ 63` is in range, hence not
negative. -/
theorem toInt_nonneg_of_below {x : F64} {B : ℚ} (h : F64.Below x B)
    (hB : B < 9223372036854775808) : 0 ≤ F64.toInt x := by
  obtain ⟨m, e, rfl, hv⟩ := h
  unfold F64.toInt
  simp only []
  have hlt : (if 0 ≤ e then m * 2 ^ e.toNat else m / 2 ^ (-e).toNat) < 9223372036854775808 := by
    have hq : (((if 0 ≤ e then m * 2 ^ e.toNat else m / 2 ^ (-e).toNat : ℕ)) : ℚ)
        ≤ (m : ℚ) * 2 ^ e := by
      by_cases he : 0 ≤ e
      · rw [if_pos he]
        push_cast
        rw [← zpow_natCast (2 : ℚ) e.toNat, Int.toNat_of_nonneg he]
      · rw [if_neg he]
        have hne : ((-e).toNat : ℤ) = -e := Int.toNat_of_nonneg (by omega)
        have e2 : (2 : ℚ) ^ e = 1 / ((2 ^ (-e).toNat : ℕ) : ℚ) := by
          push_cast
          rw [← zpow_natCast (2 : ℚ) (-e).toNat, hne, zpow_neg]
          simp
        rw [e2, mul_one_div, le_div_iff₀ (by positivity)]
        exact_mod_cast Nat.div_mul_le_self m (2 ^ (-e).toNat)
    have : (((if 0 ≤ e then m * 2 ^ e.toNat else m / 2 ^ (-e).toNat : ℕ)) : ℚ)
        < 9223372036854775808 := lt_of_le_of_lt (le_trans hq hv) hB
    exact_mod_cast this
  rw [if_pos hlt]
  exact Int.ofNat_nonneg _


/-- The rounded quotient `x = p / q * 2 ^ E` is finite and at most `3 * x + 1`. -/
theorem roundRatio_below (p q : Nat) (E : Int) (hq : q ≠ 0)
    (h : (p : ℚ) / q * 2 ^ E < 2 ^ (990 : ℤ)) :
    F64.Below (F64.roundRatio p q E) (3 * ((p : ℚ) / q * 2 ^ E) + 1) := by
  have h2E : (0 : ℚ) < 2 ^ E := zpow_pos (by norm_num) _
  have hqpos : (0 : ℚ) < (q : ℚ) := by exact_mod_cast Nat.pos_of_ne_zero hq
  have hX : (0 : ℚ) ≤ (p : ℚ) / q * 2 ^ E := by positivity
  unfold F64.roundRatio
  by_cases hp : p = 0
  · rw [if_pos hp]
    exact ⟨0, 0, rfl, by simp only [Nat.cast_zero, zero_mul]; linarith⟩
  · rw [if_neg hp]
    simp only []
    obtain ⟨s, hs⟩ : ∃ s : ℕ, s = 55 + ilog2 q - ilog2 p := ⟨_, rfl⟩
    rw [← hs]
    obtain ⟨n, hn⟩ : ∃ n : ℕ, n = p * 2 ^ s / q := ⟨_, rfl⟩
    rw [← hn]
    obtain ⟨st, hst, hst1⟩ : ∃ st : ℕ, st = (if p * 2 ^ s % q = 0 then 0 else 1) ∧ st ≤ 1 := by
      refine ⟨_, rfl, ?_⟩
      split_ifs <;> omega
    rw [← hst]
    have hqle : q ≤ p * 2 ^ s := by
      have h1 := (ilog2_spec p hp).1
      have h2 := (ilog2_spec q hq).2
      have h3 : ilog2 q + 1 ≤ ilog2 p + s := by omega
      calc q ≤ 2 ^ (ilog2 q + 1) := h2.le
        _ ≤ 2 ^ (ilog2 p + s) := Nat.pow_le_pow_right (by norm_num) h3
        _ = 2 ^ ilog2 p * 2 ^ s := pow_add 2 _ _
        _ ≤ p * 2 ^ s := Nat.mul_le_mul_right _ h1
    have hn1 : 1 ≤ n := by
      rw [hn]
      exact (Nat.one_le_div_iff (Nat.pos_of_ne_zero hq)).2 hqle
    have hnq : (n : ℚ) * q ≤ (p : ℚ) * 2 ^ s := by
      have := Nat.div_mul_le_self (p * 2 ^ s) q
      rw [← hn] at this
      exact_mod_cast this
    have h2s : (0 : ℚ) < 2 ^ s := by positivity
    have hexp : (2 : ℚ) ^ (E - (s : ℤ) - 1) = 2 ^ E / (2 ^ s * 2) := by
      rw [zpow_sub₀ (by norm_num : (2 : ℚ) ≠ 0), zpow_sub₀ (by norm_num : (2 : ℚ) ≠ 0),
        zpow_natCast, zpow_one, div_div]
    have hM : ((2 * n + st : ℕ) : ℚ) ≤ 4 * n := by
      have : 2 * n + st ≤ 4 * n := by omega
      exact_mod_cast this
    have hnX : (n : ℚ) / 2 ^ s ≤ (p : ℚ) / q := by
      rw [div_le_div_iff₀ h2s hqpos]
      exact hnq
    have hV : ((2 * n + st : ℕ) : ℚ) * 2 ^ (E - (s : ℤ) - 1) ≤ 2 * ((p : ℚ) / q * 2 ^ E) := by
      rw [hexp]
      calc ((2 * n + st : ℕ) : ℚ) * (2 ^ E / (2 ^ s * 2))
          ≤ (4 * n) * (2 ^ E / (2 ^ s * 2)) :=
            mul_le_mul_of_nonneg_right hM (by positivity)
        _ = 2 * ((n : ℚ) / 2 ^ s * 2 ^ E) := by
            field_simp
            ring
        _ ≤ 2 * ((p : ℚ) / q * 2 ^ E) := by
            have := mul_le_mul_of_nonneg_right hnX h2E.le
            linarith
    have hlt : ((2 * n + st : ℕ) : ℚ) * 2 ^ (E - (s : ℤ) - 1) < 2 ^ (1000 : ℤ) := by
      have e : (2 : ℚ) ^ (1000 : ℤ) = 2 ^ (990 : ℤ) * 2 ^ (10 : ℤ) := by
        rw [← zpow_add₀ (by norm_num : (2 : ℚ) ≠ 0)]
        norm_num
      have hp990 : (0 : ℚ) < 2 ^ (990 : ℤ) := zpow_pos (by norm_num) _
      rw [e]
      have : (2 : ℚ) ^ (10 : ℤ) = 1024 := by norm_num
      rw [this]
      linarith
    refine (roundMant_below _ _ hlt).mono ?_
    have hdiv : ((2 * n + st : ℕ) : ℚ) * 2 ^ (E - (s : ℤ) - 1) / 2 ^ 52
        ≤ ((2 * n + st : ℕ) : ℚ) * 2 ^ (E - (s : ℤ) - 1) := by
      apply div_le_self
      · exact mul_nonneg (Nat.cast_nonneg _) (zpow_nonneg (by norm_num) _)
      · norm_num
    have hdiv2 : ((2 * n + st : ℕ) : ℚ) * 2 ^ (E - (s : ℤ) - 1) / 2 ^ 52
        ≤ (p : ℚ) / q * 2 ^ E := by
      have e52 : ((2 * n + st : ℕ) : ℚ) * 2 ^ (E - (s : ℤ) - 1) / 2 ^ 52
          ≤ 2 * ((p : ℚ) / q * 2 ^ E) / 2 ^ 52 :=
        div_le_div_of_nonneg_right hV (by positivity)
      have : 2 * ((p : ℚ) / q * 2 ^ E) / 2 ^ 52 ≤ (p : ℚ) / q * 2 ^ E := by
        rw [div_le_iff₀ (by positivity)]
        have : (2 : ℚ) ≤ 2 ^ 52 := by norm_num
        nlinarith
      linarith
    linarith

/-- A bound of a float64 quotient by a positive integer. -/
theorem div_nat_below {a : F64} {A : ℚ} (ha : F64.Below a A) (q : Nat) (hq : q ≠ 0)
    (h : A < 2 ^ (990 : ℤ)) :
    F64.Below (F64.div a (F64.finite q 0)) (3 * (A / q) + 1) := by
  obtain ⟨m, e, rfl, hv⟩ := ha
  have hq1 : (1 : ℚ) ≤ (q : ℚ) := by exact_mod_cast Nat.pos_of_ne_zero hq
  have hqpos : (0 : ℚ) < (q : ℚ) := lt_of_lt_of_le one_pos hq1
  have hXe : (m : ℚ) / q * 2 ^ (e - 0) = (m : ℚ) * 2 ^ e / q := by
    rw [sub_zero]
    ring
  have hX : (m : ℚ) / q * 2 ^ (e - 0) ≤ A / q := by
    rw [hXe]
    exact div_le_div_of_nonneg_right hv hqpos.le
  have hA0 : (0 : ℚ) ≤ A :=
    le_trans (mul_nonneg (Nat.cast_nonneg _) (zpow_nonneg (by norm_num) _)) hv
  have hAq : A / q ≤ A := div_le_self hA0 hq1
  unfold F64.div
  simp only []
  rw [if_neg hq]
  refine (roundRatio_below m q (e - 0) hq (lt_of_le_of_lt (le_trans hX hAq) h)).mono ?_
  linarith


/-- The conversion of a row count, positive and below `2 ^ 32`, is exact. -/
theorem ofInt_exact (rows : Int) (h0 : 0 < rows) (h1 : rows < 4294967296) :
    F64.ofInt rows = F64.finite rows.toNat 0 ∧ rows.toNat ≠ 0 := by
  unfold F64.ofInt
  have : rows.toNat < 2 ^ 53 := by
    have : (2 : ℕ) ^ 53 = 9007199254740992 := by norm_num
    omega
  exact ⟨ofNat_exact _ this, by omega⟩

/-- A 32-bit count divided by a positive 32-bit row count is below `2 ^ 34`. -/
theorem count_div_rows_below (u : Nat) (rows : Int) (h0 : 0 < rows) (h1 : rows < 4294967296)
    (hu : u < 4294967296) :
    F64.Below (F64.div (F64.ofNat u) (F64.ofInt rows)) 17179869184 := by
  obtain ⟨hr, hr0⟩ := ofInt_exact rows h0 h1
  rw [hr]
  have hu53 : u < 2 ^ 53 := lt_trans hu (by norm_num)
  have huq : (u : ℚ) < 4294967296 := by exact_mod_cast hu
  have h990 : (4294967296 : ℚ) < 2 ^ (990 : ℤ) := by
    have : (4294967296 : ℚ) = 2 ^ (32 : ℤ) := by norm_num
    rw [this]
    exact zpow_lt_zpow_right₀ (by norm_num) (by norm_num)
  refine (div_nat_below (ofNat_below u hu53) rows.toNat hr0 (lt_trans huq h990)).mono ?_
  have hq1 : (1 : ℚ) ≤ (rows.toNat : ℚ) := by exact_mod_cast Nat.pos_of_ne_zero hr0
  have : (u : ℚ) / (rows.toNat : ℚ) ≤ u := div_le_self (Nat.cast_nonneg _) hq1
  linarith

/-- The weight is at most 40. -/
theorem floatWeight_below (f : F64) : F64.Below (floatWeight f) 40 := by
  unfold floatWeight
  split_ifs
  · exact (ofNat_below 10 (by norm_num)).mono (by norm_num)
  · exact (ofNat_below 20 (by norm_num)).mono (by norm_num)
  · exact (ofNat_below 40 (by norm_num)).mono (by norm_num)

/-- Values up to `2 ^ 100` are below `2 ^ 1000`. -/
theorem small_lt_pow1000 (x : ℚ) (h : x ≤ 2 ^ 100) : x < 2 ^ (1000 : ℤ) := by
  have h1 : (2 : ℚ) ^ (100 : ℕ) = 2 ^ (100 : ℤ) := by norm_num
  have h2 : (2 : ℚ) ^ (100 : ℤ) < 2 ^ (1000 : ℤ) :=
    zpow_lt_zpow_right₀ (by norm_num) (by norm_num)
  rw [h1] at h
  exact lt_of_le_of_lt h h2

/-- Values up to `2 ^ 100` are below `2 ^ 990`. -/
theorem small_lt_pow990 (x : ℚ) (h : x ≤ 2 ^ 100) : x < 2 ^ (990 : ℤ) := by
  have h1 : (2 : ℚ) ^ (100 : ℕ) = 2 ^ (100 : ℤ) := by norm_num
  have h2 : (2 : ℚ) ^ (100 : ℤ) < 2 ^ (990 : ℤ) :=
    zpow_lt_zpow_right₀ (by norm_num) (by norm_num)
  rw [h1] at h
  exact lt_of_le_of_lt h h2

/-- The float64 sum of at most `2 ^ 32` terms below `2 ^ 40` each grows by at most
`2 ^ 41` a term. -/
theorem foldl_add_below (l : List F64) (hl : ∀ x ∈ l, F64.Below x 1099511627776) :
    ∀ (acc : F64) (k : Nat), F64.Below acc ((k : ℚ) * 2199023255552) →
      k + l.length ≤ 4294967296 →
      F64.Below (l.foldl F64.add acc) (((k + l.length : ℕ) : ℚ) * 2199023255552) := by
  induction l with
  | nil =>
    intro acc k hacc _
    simpa using hacc
  | cons x xs ih =>
    intro acc k hacc hk
    rw [List.foldl_cons]
    have hx := hl x (List.mem_cons_self x xs)
    have hlen : (x :: xs).length = xs.length + 1 := rfl
    have hkq : (k : ℚ) ≤ 4294967296 := by
      have : k ≤ 4294967296 := by omega
      exact_mod_cast this
    have hk0 : (0 : ℚ) ≤ (k : ℚ) := Nat.cast_nonneg _
    have hsum := add_below hacc hx (small_lt_pow1000 _ (by norm_num; nlinarith))
    have hstep : F64.Below (F64.add acc x) (((k + 1 : ℕ) : ℚ) * 2199023255552) := by
      refine hsum.mono ?_
      push_cast
      have : ((k : ℚ) * 2199023255552 + 1099511627776) / 2 ^ 52 ≤ 4194305 := by
        rw [div_le_iff₀ (by positivity)]
        norm_num
        nlinarith
      linarith
    have := ih (fun y hy => hl y (List.mem_cons_of_mem x hy)) (F64.add acc x) (k + 1) hstep
      (by rw [hlen] at hk; omega)
    rw [hlen]
    have e : k + (xs.length + 1) = k + 1 + xs.length := by omega
    rw [e]
    exact this

/-- With a positive row count, at least one column and all counts below `2 ^ 32`
the product `100 * F` stays below `2 ^ 63`, so the score is at least 1. -/
theorem floatRawScore_pos (rows : Int) (cols : Nat) (updates : Nat → Nat) (deletes : Nat)
    (hr0 : 0 < rows) (hr1 : rows < 4294967296) (hc0 : 0 < cols) (hc1 : cols < 4294967296)
    (hu : ∀ c, updates c < 4294967296) (hd : deletes < 4294967296) :
    1 ≤ floatRawScore rows cols updates deletes := by
  have hterm : ∀ x ∈ (List.range cols).map (fun c =>
      F64.mul (floatWeight (F64.div (F64.ofNat (updates c)) (F64.ofInt rows)))
        (F64.div (F64.ofNat (updates c)) (F64.ofInt rows))), F64.Below x 1099511627776 := by
    intro x hx
    obtain ⟨c, _, rfl⟩ := List.mem_map.1 hx
    have hf := count_div_rows_below (updates c) rows hr0 hr1 (hu c)
    have hw := floatWeight_below (F64.div (F64.ofNat (updates c)) (F64.ofInt rows))
    exact (mul_below hw hf (small_lt_pow1000 _ (by norm_num))).mono (by norm_num)
  have hsum := foldl_add_below _ hterm (F64.ofNat 0) 0
    ((ofNat_below 0 (by norm_num)).mono (by norm_num))
    (by simp only [List.length_map, List.length_range]; omega)
  simp only [List.length_map, List.length_range, zero_add] at hsum
  have hcq : (cols : ℚ) < 4294967296 := by exact_mod_cast hc1
  have hcpos : (0 : ℚ) < (cols : ℚ) := by exact_mod_cast hc0
  have havg := div_nat_below hsum cols (Nat.pos_iff_ne_zero.1 hc0)
    (small_lt_pow990 _ (by norm_num; nlinarith))
  have ecols : (cols : ℚ) * 2199023255552 / cols = 2199023255552 := by
    field_simp
  rw [ecols] at havg
  rw [← ofNat_exact cols (lt_trans hc1 (by norm_num))] at havg
  have hdel := count_div_rows_below deletes rows hr0 hr1 hd
  have hdel50 := mul_below hdel (ofNat_below 50 (by norm_num)) (small_lt_pow1000 _ (by norm_num))
  have hfac := add_below havg hdel50 (small_lt_pow1000 _ (by norm_num))
  have hall := mul_below hfac (ofNat_below 100 (by norm_num)) (small_lt_pow1000 _ (by norm_num))
  have hnn : 0 ≤ F64.toInt (F64.mul (floatFactor rows cols updates deletes) (F64.ofNat 100)) := by
    unfold floatFactor
    exact toInt_nonneg_of_below hall (by norm_num)
  unfold floatRawScore
  split_ifs with h0
  · exact le_refl 1
  · omega

/-- Outside the full appendable case a non-zero raw score is returned with
`nice` added and the block is left as it was. -/
theorem EstimateScore_of_raw_ne_zero (blk : dataBlock)
    (hfull : ¬(blk.meta.IsAppendable = true ∧ blk.Rows = (blk.meta.schema.BlockMaxRows : Int)))
    (hraw : estimateRawScore blk ≠ 0) :
    EstimateScore blk = (estimateRawScore blk + (blk.nice : Int), blk) := by
  unfold EstimateScore
  rw [if_neg hfull]
  simp only [if_neg hraw]

/-- The raw score of a sealed block with 1000 rows, three columns updated 5, 100
and 0 times, 10 deletes and some change node is 186. -/
theorem score_of_s6_counters (blk : dataBlock) (hseal : blk.meta.IsAppendable = false)
    (hrows : blk.file.ReadRows = 1000) (hcols : blk.meta.schema.ColDefs = 3)
    (hu0 : blk.mvcc.GetColumnUpdateCnt 0 = 5) (hu1 : blk.mvcc.GetColumnUpdateCnt 1 = 100)
    (hu2 : blk.mvcc.GetColumnUpdateCnt 2 = 0) (hdel : blk.mvcc.GetDeleteCnt = 10)
    (hch : blk.mvcc.GetChangeNodeCnt ≠ 0) : estimateRawScore blk = 186 := by
  have hR : blk.Rows = 1000 := by
    unfold dataBlock.Rows
    simp [hseal, hrows]
  rw [estimateRawScore_weighted blk (by simp [hseal]) (fun h => hch h.1) (fun h => hch h.1)]
  have hval : floatRawScore 1000 3 (fun c => [5, 100, 0].getD (c % 65536) 0) 10 = 186 := by
    decide
  rw [← hval, hR, hcols, hdel]
  unfold floatRawScore floatFactor
  simp [List.range_succ, hu0, hu1, hu2]

/-- The raw score of scenario S6, whatever `nice` is. -/
theorem s6_score (n : Nat) : estimateRawScore (s6Block n) = 186 :=
  score_of_s6_counters (s6Block n) rfl rfl rfl rfl rfl rfl rfl (Nat.succ_ne_zero 2)

/-- The update counts of scenario S6 are below `2 ^ 32`. -/
theorem s6_counts_small (c : Nat) : (s6Block 0).mvcc.GetColumnUpdateCnt c < 4294967296 := by
  have h : (s6Block 0).mvcc.GetColumnUpdateCnt c = [5, 100, 0].getD c 0 := rfl
  rw [h]
  rcases c with _ | _ | _ | c
  · decide
  · decide
  · decide
  · simp

/-- The raw score of a sealed block with 1000 rows, one column without updates,
9 deletes and a change node is 44. -/
theorem nineDeletesBlock_score : estimateRawScore nineDeletesBlock = 44 := by
  decide

/-- The raw score of a sealed block without rows that has a change node is the
minimum `int64`: `0.0 / 0.0` is NaN. -/
theorem noRowsBlock_score (n : Nat) : estimateRawScore (noRowsBlock n) = -9223372036854775808 := by
  have h : estimateRawScore (noRowsBlock 0) = -9223372036854775808 := by decide
  exact h

/-! Claims C1 to C4: `EstimateScore` and `RunCalibration`. -/

/-- Claim C1, amended: for every block that is not a full appendable block
(appendable with row count equal to max-rows-per-block), `EstimateScore`
returns `estimateRawScore()` plus the value of `nice` that the call leaves
behind: the call resets `nice` to 0 when the raw score is 0 and does not touch
it otherwise, and it changes no other field. -/
theorem EstimateScore_eq_raw_add_nice (blk : dataBlock)
    (hfull : ¬(blk.meta.IsAppendable = true ∧ blk.Rows = (blk.meta.schema.BlockMaxRows : Int))) :
    (EstimateScore blk).1 = estimateRawScore blk + ((EstimateScore blk).2.nice : Int)
      ∧ (EstimateScore blk).2
          = { blk with nice := if estimateRawScore blk = 0 then 0 else blk.nice } := by
  unfold EstimateScore
  rw [if_neg hfull]
  by_cases hraw : estimateRawScore blk = 0
  · simp [hraw, resetNice]
  · simp [hraw]

/-- Witness of claim C1, amended: scenario S6 with `nice = 5` scores
`186 + 5` and keeps `nice = 5`. -/
theorem EstimateScore_eq_raw_add_nice_witness :
    estimateRawScore (s6Block 5) = 186
      ∧ (EstimateScore (s6Block 5)).1
          = estimateRawScore (s6Block 5) + ((EstimateScore (s6Block 5)).2.nice : Int)
      ∧ (EstimateScore (s6Block 5)).2
          = { s6Block 5 with
              nice := if estimateRawScore (s6Block 5) = 0 then 0 else (s6Block 5).nice } :=
  ⟨s6_score 5, EstimateScore_eq_raw_add_nice (s6Block 5) (by decide)⟩

/-- Counterexample to claim C1 as stated: a full appendable block with
`nice = 5` scores 100 and keeps `nice = 5`, although its raw score is 100 and
raw score plus `nice` is 105. -/
theorem EstimateScore_ne_raw_add_nice :
    (EstimateScore (fullABlock 5)).1 = 100
      ∧ (EstimateScore (fullABlock 5)).2.nice = 5
      ∧ estimateRawScore (fullABlock 5) = 100
      ∧ estimateRawScore (fullABlock 5) + ((fullABlock 5).nice : Int) = 105 :=
  ⟨rfl, rfl, rfl, rfl⟩

/-- Claim C2, amended: for every appendable block whose row count equals
max-rows-per-block and whose metadata is dropped-committed or
dropped-uncommitted, `EstimateScore` returns 0 and changes nothing, whatever
the MVCC counters and `nice` are. -/
theorem EstimateScore_dropped_full (blk : dataBlock)
    (happ : blk.meta.IsAppendable = true)
    (hrows : blk.Rows = (blk.meta.schema.BlockMaxRows : Int))
    (hdrop : blk.meta.IsDroppedCommitted = true ∨ blk.meta.IsDroppedUncommitted = true) :
    (EstimateScore blk).1 = 0 ∧ (EstimateScore blk).2 = blk := by
  unfold EstimateScore
  rw [if_pos ⟨happ, hrows⟩, if_pos hdrop]
  exact ⟨rfl, rfl⟩

/-- Witness of claim C2, amended: a dropped full appendable block with
`nice = 9` scores 0. -/
theorem EstimateScore_dropped_full_witness :
    (droppedFullABlock 9).meta.IsDroppedCommitted = true
      ∧ (EstimateScore (droppedFullABlock 9)).1 = 0
      ∧ (EstimateScore (droppedFullABlock 9)).2 = droppedFullABlock 9 :=
  ⟨rfl, EstimateScore_dropped_full (droppedFullABlock 9) rfl rfl (Or.inl rfl)⟩

/-- Counterexample to claim C2 as stated: the sealed block of scenario S6 scores
186 when its drop is committed, and 188 with `nice = 2` when its drop is
pending. -/
theorem EstimateScore_dropped_sealed_ne_zero :
    (droppedS6Block 0).meta.IsDroppedCommitted = true
      ∧ (EstimateScore (droppedS6Block 0)).1 = 186
      ∧ (pendingDropS6Block 2).meta.IsDroppedUncommitted = true
      ∧ (EstimateScore (pendingDropS6Block 2)).1 = 188 := by
  have h0 : estimateRawScore (droppedS6Block 0) = 186 := s6_score 0
  have h2 : estimateRawScore (pendingDropS6Block 2) = 186 := s6_score 2
  refine ⟨rfl, ?_, rfl, ?_⟩
  · rw [EstimateScore_of_raw_ne_zero _ (by decide) (by rw [h0]; decide), h0]
    rfl
  · rw [EstimateScore_of_raw_ne_zero _ (by decide) (by rw [h2]; decide), h2]
    rfl

/-- Claim C3, amended: for every block state, `RunCalibration` replaces `nice`
by `nice + 1` modulo `2 ^ 32` (the `uint32` counter wraps to 0 at
`2 ^ 32 - 1`) if and only if `estimateRawScore()` is not 0, otherwise `nice`
is unchanged; no other field of the block changes. -/
theorem RunCalibration_spec (blk : dataBlock) :
    RunCalibration blk
      = { blk with
          nice := if estimateRawScore blk ≠ 0 then (blk.nice + 1) % 4294967296 else blk.nice } := by
  unfold RunCalibration
  by_cases h : estimateRawScore blk = 0
  · simp [h]
  · simp [h]

/-- Counterexample to claim C3 as stated. With `nice = 2 ^ 32 - 1` and a
positive raw score, `RunCalibration` leaves `nice = 0`, not `nice + 1`. On a
sealed block without rows that has a change node the raw score is the minimum
`int64`, which is not positive, and `RunCalibration` still increments
`nice`. -/
theorem RunCalibration_wraps :
    estimateRawScore (s6Block 4294967295) = 186
      ∧ (s6Block 4294967295).nice = 4294967295
      ∧ (RunCalibration (s6Block 4294967295)).nice = 0
      ∧ estimateRawScore (noRowsBlock 7) = -9223372036854775808
      ∧ (noRowsBlock 7).nice = 7
      ∧ (RunCalibration (noRowsBlock 7)).nice = 8 := by
  have h : estimateRawScore (s6Block 4294967295) = 186 := s6_score _
  have h0 : estimateRawScore (noRowsBlock 7) = -9223372036854775808 := noRowsBlock_score 7
  refine ⟨h, rfl, ?_, h0, rfl, ?_⟩
  · unfold RunCalibration
    simp [h]
    rfl
  · unfold RunCalibration
    simp [h0]
    rfl

/-! Claim C4: the score across one calibration. -/

/-- Claim C4, amended: for every block state whose `nice` is below
`2 ^ 32 - 1`, if `a` is `EstimateScore` in that state, `RunCalibration` then
runs with no other mutation and `b` is `EstimateScore` afterwards, then
`b - a` is exactly 0 or 1. -/
theorem EstimateScore_step (blk : dataBlock) (hnice : blk.nice < 4294967295) :
    (EstimateScore (RunCalibration (EstimateScore blk).2)).1 - (EstimateScore blk).1 = 0
      ∨ (EstimateScore (RunCalibration (EstimateScore blk).2)).1 - (EstimateScore blk).1 = 1 := by
  by_cases hfull : blk.meta.IsAppendable = true ∧ blk.Rows = (blk.meta.schema.BlockMaxRows : Int)
  · left
    have hraw : estimateRawScore blk = 100 := by
      unfold estimateRawScore
      rw [if_pos ⟨hfull.2, hfull.1⟩]
    have hcal : RunCalibration blk = { blk with nice := (blk.nice + 1) % 4294967296 } := by
      unfold RunCalibration
      simp [hraw]
    have hfull2 : ({ blk with nice := (blk.nice + 1) % 4294967296 } : dataBlock).meta.IsAppendable
          = true
        ∧ ({ blk with nice := (blk.nice + 1) % 4294967296 } : dataBlock).Rows
          = (({ blk with nice := (blk.nice + 1) % 4294967296 } : dataBlock).meta.schema.BlockMaxRows
              : Int) := hfull
    by_cases hdrop : blk.meta.IsDroppedCommitted = true ∨ blk.meta.IsDroppedUncommitted = true
    · have h1 : EstimateScore blk = (0, blk) := by
        unfold EstimateScore
        rw [if_pos hfull, if_pos hdrop]
      rw [h1]
      simp only
      rw [hcal]
      unfold EstimateScore
      rw [if_pos hfull2, if_pos hdrop]
      rfl
    · have h1 : EstimateScore blk = (100, blk) := by
        unfold EstimateScore
        rw [if_pos hfull, if_neg hdrop]
      rw [h1]
      simp only
      rw [hcal]
      unfold EstimateScore
      rw [if_pos hfull2, if_neg hdrop]
      rfl
  · by_cases hraw : estimateRawScore blk = 0
    · left
      have h1 : EstimateScore blk = (0, resetNice blk) := by
        unfold EstimateScore
        rw [if_neg hfull]
        simp only [if_pos hraw]
      have hraw2 : estimateRawScore (resetNice blk) = 0 := hraw
      have hcal : RunCalibration (resetNice blk) = resetNice blk := by
        unfold RunCalibration
        simp [hraw2]
      have hfull2 : ¬((resetNice blk).meta.IsAppendable = true
          ∧ (resetNice blk).Rows = ((resetNice blk).meta.schema.BlockMaxRows : Int)) := hfull
      rw [h1]
      simp only
      rw [hcal]
      unfold EstimateScore
      rw [if_neg hfull2]
      simp only [if_pos hraw2]
      rfl
    · right
      have h1 := EstimateScore_of_raw_ne_zero blk hfull hraw
      have hcal : RunCalibration blk = { blk with nice := blk.nice + 1 } := by
        unfold RunCalibration
        have hmod : (blk.nice + 1) % 4294967296 = blk.nice + 1 := Nat.mod_eq_of_lt (by omega)
        simp [hraw, hmod]
      have h2 := EstimateScore_of_raw_ne_zero { blk with nice := blk.nice + 1 } hfull hraw
      rw [h1]
      simp only
      rw [hcal, h2]
      have hraw3 : estimateRawScore { blk with nice := blk.nice + 1 } = estimateRawScore blk := rfl
      simp only [hraw3]
      push_cast
      ring

/-- Witness of claim C4, amended: on scenario S6 with `nice = 5` the score goes
from 191 to 192. -/
theorem EstimateScore_step_witness :
    (s6Block 5).nice < 4294967295
      ∧ ((EstimateScore (RunCalibration (EstimateScore (s6Block 5)).2)).1
            - (EstimateScore (s6Block 5)).1 = 0
          ∨ (EstimateScore (RunCalibration (EstimateScore (s6Block 5)).2)).1
            - (EstimateScore (s6Block 5)).1 = 1) :=
  ⟨by decide, EstimateScore_step (s6Block 5) (by decide)⟩

/-- Counterexample to claim C4 as stated: on scenario S6 with
`nice = 2 ^ 32 - 1` the score is 4294967481 before the calibration and 186
after it, a difference of `-4294967295`. -/
theorem EstimateScore_step_wraps :
    (EstimateScore (s6Block 4294967295)).1 = 4294967481
      ∧ (EstimateScore (RunCalibration (EstimateScore (s6Block 4294967295)).2)).1 = 186
      ∧ (EstimateScore (RunCalibration (EstimateScore (s6Block 4294967295)).2)).1
          - (EstimateScore (s6Block 4294967295)).1 = -4294967295 := by
  have h : ∀ n, estimateRawScore (s6Block n) = 186 := s6_score
  have h1 : EstimateScore (s6Block 4294967295) = (186 + 4294967295, s6Block 4294967295) := by
    have := EstimateScore_of_raw_ne_zero (s6Block 4294967295) (by decide) (by rw [h]; decide)
    rw [h] at this
    exact this
  have hcal : RunCalibration (s6Block 4294967295) = s6Block 0 := by
    unfold RunCalibration
    simp [h]
    rfl
  have h2 : EstimateScore (s6Block 0) = (186 + 0, s6Block 0) := by
    have := EstimateScore_of_raw_ne_zero (s6Block 0) (by decide) (by rw [h]; decide)
    rw [h] at this
    exact this
  rw [h1]
  simp only
  rw [hcal, h2]
  exact ⟨rfl, rfl, rfl⟩

/-! Claims C5 to C7: the rules of `estimateRawScore`. -/

/-- Claim C5, amended: when none of the scoring rules 1 to 3 applies, `rows > 0`
and there is at least one column, `estimateRawScore` equals the formula of the
spec evaluated in float64, every operation rounded, in the order of the code:
the conversion to `int` of `100 * F`, raised to 1 when it is 0, with `F` the sum
over the columns of `w(f_c) * f_c` divided by the number of columns plus
`deletes / rows * 50`. The result is never 0, and it is at least 1 when the row
count, the number of columns and the update and delete counts are below
`2 ^ 32`, as the `uint32` counts of the code are. -/
theorem estimateRawScore_eq_floatRawScore (blk : dataBlock)
    (h1 : ¬(blk.Rows = (blk.meta.schema.BlockMaxRows : Int) ∧ blk.meta.IsAppendable = true))
    (h2 : ¬(blk.mvcc.GetChangeNodeCnt = 0 ∧ blk.meta.IsAppendable = false))
    (h3 : ¬(blk.mvcc.GetChangeNodeCnt = 0 ∧ blk.meta.IsAppendable = true
      ∧ blk.mvcc.LoadMaxVisible ≤ blk.GetMaxCheckpointTS))
    (hrows : 0 < blk.Rows) (hcols : 0 < blk.meta.schema.ColDefs) :
    estimateRawScore blk
        = floatRawScore blk.Rows blk.meta.schema.ColDefs
            (fun c => blk.mvcc.GetColumnUpdateCnt (c % 65536)) blk.mvcc.GetDeleteCnt
      ∧ estimateRawScore blk ≠ 0
      ∧ (blk.Rows < 4294967296 → blk.meta.schema.ColDefs < 4294967296 →
          (∀ c, blk.mvcc.GetColumnUpdateCnt c < 4294967296) →
          blk.mvcc.GetDeleteCnt < 4294967296 → 1 ≤ estimateRawScore blk) := by
  rw [estimateRawScore_weighted blk h1 h2 h3]
  refine ⟨rfl, ?_, ?_⟩
  · unfold floatRawScore
    split_ifs with h0
    · decide
    · exact h0
  · intro hr hc hu hd
    exact floatRawScore_pos _ _ _ _ hrows hr hcols hc (fun c => hu (c % 65536)) hd

/-- Witness of claim C5, amended: scenario S6 is scored by rule 4 and its score
is the one of the formula in float64, at least 1. -/
theorem estimateRawScore_eq_floatRawScore_witness :
    (0 : Int) < (s6Block 0).Rows ∧ 0 < (s6Block 0).meta.schema.ColDefs
      ∧ estimateRawScore (s6Block 0)
          = floatRawScore 1000 3 (fun c => [5, 100, 0].getD (c % 65536) 0) 10
      ∧ estimateRawScore (s6Block 0) ≠ 0
      ∧ 1 ≤ estimateRawScore (s6Block 0) :=
  ⟨by decide, by decide,
    (estimateRawScore_eq_floatRawScore (s6Block 0) (by decide) (by decide) (by decide)
      (by decide) (by decide)).1,
    (estimateRawScore_eq_floatRawScore (s6Block 0) (by decide) (by decide) (by decide)
      (by decide) (by decide)).2.1,
    (estimateRawScore_eq_floatRawScore (s6Block 0) (by decide) (by decide) (by decide)
      (by decide) (by decide)).2.2 (by decide) (by decide) s6_counts_small (by decide)⟩

/-- Counterexample to claim C5 as stated: a sealed block with 1000 rows, one
column without updates, 9 deletes and a change node is scored by rule 4; the
code returns 44 where the formula in exact rational arithmetic gives
`trunc(100 * (50 * 9 / 1000)) = 45`, because `9.0 / 1000.0 * 50 * 100` is
rounded below 45 in float64. -/
theorem estimateRawScore_float_below_exact :
    nineDeletesBlock.meta.IsAppendable = false
      ∧ nineDeletesBlock.mvcc.GetChangeNodeCnt = 1
      ∧ nineDeletesBlock.Rows = 1000
      ∧ nineDeletesBlock.meta.schema.ColDefs = 1
      ∧ nineDeletesBlock.mvcc.GetColumnUpdateCnt 0 = 0
      ∧ nineDeletesBlock.mvcc.GetDeleteCnt = 9
      ∧ estimateRawScore nineDeletesBlock = 44
      ∧ specRawScore 1000 1 (fun _ => 0) 9 = 45 := by
  refine ⟨rfl, rfl, by decide, rfl, rfl, rfl, nineDeletesBlock_score, ?_⟩
  unfold specRawScore specFactor
  have h : truncToInt (100 * ((1 / ((1 : Nat) : ℚ)) * ∑ c ∈ Finset.range 1,
      specWeight (((0 : Nat) : ℚ) / ((1000 : Int) : ℚ)) * (((0 : Nat) : ℚ) / ((1000 : Int) : ℚ))
        + 50 * ((9 : Nat) : ℚ) / ((1000 : Int) : ℚ))) = 45 := by
    apply truncToInt_eq_of_le_of_lt <;> norm_num [specWeight]
  rw [h]
  rfl

/-- Claim C6, amended: for a non-appendable block with 1000 rows, 3 columns,
per-column update counts 5, 100 and 0, delete count 10 and a non-zero MVCC
change-node count, `estimateRawScore` returns 186: the column with factor
exactly 0.005 is weighted by 20, not by 10. -/
theorem estimateRawScore_S6 (blk : dataBlock) (hseal : blk.meta.IsAppendable = false)
    (hrows : blk.file.ReadRows = 1000) (hcols : blk.meta.schema.ColDefs = 3)
    (hu0 : blk.mvcc.GetColumnUpdateCnt 0 = 5) (hu1 : blk.mvcc.GetColumnUpdateCnt 1 = 100)
    (hu2 : blk.mvcc.GetColumnUpdateCnt 2 = 0) (hdel : blk.mvcc.GetDeleteCnt = 10)
    (hch : blk.mvcc.GetChangeNodeCnt ≠ 0) : estimateRawScore blk = 186 :=
  score_of_s6_counters blk hseal hrows hcols hu0 hu1 hu2 hdel hch

/-- Witness of claim C6, amended: the block of scenario S6. -/
theorem estimateRawScore_S6_witness :
    (s6Block 0).meta.IsAppendable = false ∧ (s6Block 0).mvcc.GetChangeNodeCnt ≠ 0
      ∧ estimateRawScore (s6Block 0) = 186 :=
  ⟨rfl, by decide,
    estimateRawScore_S6 (s6Block 0) rfl rfl rfl rfl rfl rfl rfl (by decide)⟩

/-- Counterexample to claim C6 as stated: the block of scenario S6 (sealed, 1000
rows, 3 columns, update counts 5, 100, 0, 10 deletes, 3 change nodes) does not
score 185. -/
theorem estimateRawScore_S6_ne_185 :
    (s6Block 0).meta.IsAppendable = false
      ∧ (s6Block 0).Rows = 1000
      ∧ (s6Block 0).meta.schema.ColDefs = 3
      ∧ (List.range 3).map (s6Block 0).mvcc.GetColumnUpdateCnt = [5, 100, 0]
      ∧ (s6Block 0).mvcc.GetDeleteCnt = 10
      ∧ (s6Block 0).mvcc.GetChangeNodeCnt = 3
      ∧ estimateRawScore (s6Block 0) ≠ 185 := by
  refine ⟨rfl, rfl, rfl, rfl, rfl, rfl, ?_⟩
  rw [s6_score]
  decide

/-- Claim C7: the constant scoring rules are applied in order. `estimateRawScore`
returns 100 for every appendable block whose row count equals
max-rows-per-block; otherwise it returns 0 whenever the MVCC change-node count
is 0 and either the block is non-appendable or `maxVisibleTs` is at most
`maxCheckpointTs`. -/
theorem estimateRawScore_constant_rules (blk : dataBlock) :
    (blk.meta.IsAppendable = true → blk.Rows = (blk.meta.schema.BlockMaxRows : Int) →
        estimateRawScore blk = 100)
      ∧ (¬(blk.meta.IsAppendable = true ∧ blk.Rows = (blk.meta.schema.BlockMaxRows : Int)) →
          blk.mvcc.GetChangeNodeCnt = 0 →
          (blk.meta.IsAppendable = false ∨ blk.mvcc.LoadMaxVisible ≤ blk.GetMaxCheckpointTS) →
          estimateRawScore blk = 0) := by
  constructor
  · intro ha hr
    unfold estimateRawScore
    rw [if_pos ⟨hr, ha⟩]
  · intro hfull hc hor
    have h1 : ¬(blk.Rows = (blk.meta.schema.BlockMaxRows : Int) ∧ blk.meta.IsAppendable = true) :=
      fun h => hfull ⟨h.2, h.1⟩
    unfold estimateRawScore
    rw [if_neg h1]
    by_cases ha : blk.meta.IsAppendable = false
    · rw [if_pos ⟨hc, ha⟩]
    · have ha2 : blk.meta.IsAppendable = true := by simpa using ha
      have hv : blk.mvcc.LoadMaxVisible ≤ blk.GetMaxCheckpointTS := by
        rcases hor with h | h
        · exact absurd h ha
        · exact h
      rw [if_neg (fun h => ha h.2), if_pos ⟨hc, ha2, hv⟩]

/-- Witness of claim C7: a full appendable block without MVCC change scores 100;
a sealed block and a non-full appendable block without MVCC change score 0. -/
theorem estimateRawScore_constant_rules_witness :
    (fullABlock 0).mvcc.GetChangeNodeCnt = 0
      ∧ estimateRawScore (fullABlock 0) = 100
      ∧ estimateRawScore (idleBlock 0) = 0
      ∧ estimateRawScore (idleABlock 0) = 0 :=
  ⟨rfl, (estimateRawScore_constant_rules (fullABlock 0)).1 rfl rfl,
   (estimateRawScore_constant_rules (idleBlock 0)).2 (by decide) rfl (Or.inl rfl),
   (estimateRawScore_constant_rules (idleABlock 0)).2 (by decide) rfl (Or.inr (by decide))⟩

/-! Claim C8: the choice of the compaction task. -/

/-- Claim C8, amended: `BuildCompactionTaskFactory` never returns an error. It
returns no factory and no scopes for a block that is dropped-committed or has
an active transaction; otherwise it returns the `CompactBlock` factory when the
block is sealed or is appendable with row count equal to max-rows-per-block,
and the `CompactAppendableBlock` factory for every other appendable block,
whatever its churn, with scopes equal to exactly the block's own ID. -/
theorem BuildCompactionTaskFactory_spec (blk : dataBlock) :
    (BuildCompactionTaskFactory blk).err = none
      ∧ (blk.meta.IsDroppedCommitted = true ∨ blk.meta.HasActiveTxn = true →
          (BuildCompactionTaskFactory blk).factory = none
            ∧ (BuildCompactionTaskFactory blk).scopes = [])
      ∧ (¬(blk.meta.IsDroppedCommitted = true ∨ blk.meta.HasActiveTxn = true) →
          (blk.meta.IsAppendable = false
            ∨ (blk.meta.IsAppendable = true
                ∧ blk.Rows = (blk.meta.schema.BlockMaxRows : Int)) →
            (BuildCompactionTaskFactory blk).factory
                = some (TxnTaskFactory.CompactBlockTaskFactory blk.meta)
              ∧ (BuildCompactionTaskFactory blk).scopes = [blk.meta.ID])
          ∧ (blk.meta.IsAppendable = true
              ∧ blk.Rows ≠ (blk.meta.schema.BlockMaxRows : Int) →
            (BuildCompactionTaskFactory blk).factory
                = some (TxnTaskFactory.CompactABlockTaskFactory blk.meta)
              ∧ (BuildCompactionTaskFactory blk).scopes = [blk.meta.ID])) := by
  refine ⟨?_, ?_, ?_⟩
  · unfold BuildCompactionTaskFactory
    simp only
    split_ifs <;> rfl
  · intro h
    unfold BuildCompactionTaskFactory
    simp only
    rw [if_pos h]
    exact ⟨rfl, rfl⟩
  · intro h
    constructor
    · intro hs
      unfold BuildCompactionTaskFactory
      simp only
      rw [if_neg h, if_pos hs]
      exact ⟨rfl, rfl⟩
    · intro hs
      have hns : ¬(blk.meta.IsAppendable = false
          ∨ (blk.meta.IsAppendable = true
              ∧ blk.Rows = (blk.meta.schema.BlockMaxRows : Int))) := by
        rintro (h1 | h1)
        · rw [hs.1] at h1
          exact Bool.noConfusion h1
        · exact hs.2 h1.2
      unfold BuildCompactionTaskFactory
      simp only
      rw [if_neg h, if_neg hns, if_pos hs.1]
      exact ⟨rfl, rfl⟩

/-- Witness of claim C8, amended: the four cases on concrete blocks. -/
theorem BuildCompactionTaskFactory_spec_witness :
    (BuildCompactionTaskFactory busyABlock).factory = none
      ∧ (BuildCompactionTaskFactory busyABlock).scopes = []
      ∧ (BuildCompactionTaskFactory (s6Block 0)).factory
          = some (TxnTaskFactory.CompactBlockTaskFactory (s6Block 0).meta)
      ∧ (BuildCompactionTaskFactory (fullABlock 0)).factory
          = some (TxnTaskFactory.CompactBlockTaskFactory (fullABlock 0).meta)
      ∧ (BuildCompactionTaskFactory (idleABlock 0)).factory
          = some (TxnTaskFactory.CompactABlockTaskFactory (idleABlock 0).meta)
      ∧ (BuildCompactionTaskFactory (idleABlock 0)).scopes = [7] :=
  ⟨((BuildCompactionTaskFactory_spec busyABlock).2.1 (Or.inr rfl)).1,
   ((BuildCompactionTaskFactory_spec busyABlock).2.1 (Or.inr rfl)).2,
   (((BuildCompactionTaskFactory_spec (s6Block 0)).2.2 (by decide)).1 (Or.inl rfl)).1,
   (((BuildCompactionTaskFactory_spec (fullABlock 0)).2.2 (by decide)).1
      (Or.inr ⟨rfl, rfl⟩)).1,
   (((BuildCompactionTaskFactory_spec (idleABlock 0)).2.2 (by decide)).2
      ⟨rfl, by decide⟩).1,
   (((BuildCompactionTaskFactory_spec (idleABlock 0)).2.2 (by decide)).2
      ⟨rfl, by decide⟩).2⟩

/-- Counterexample to claim C8 as stated: an eligible appendable block with 2
rows of 4, no change node, no update, no delete, nothing visible past the
checkpoint and raw score 0 is handed the `CompactAppendableBlock` factory. -/
theorem BuildCompactionTaskFactory_without_churn :
    (idleABlock 0).mvcc.GetChangeNodeCnt = 0
      ∧ (idleABlock 0).mvcc.GetDeleteCnt = 0
      ∧ (List.range 2).map (idleABlock 0).mvcc.GetColumnUpdateCnt = [0, 0]
      ∧ (idleABlock 0).mvcc.LoadMaxVisible ≤ (idleABlock 0).GetMaxCheckpointTS
      ∧ estimateRawScore (idleABlock 0) = 0
      ∧ (BuildCompactionTaskFactory (idleABlock 0)).factory
          = some (TxnTaskFactory.CompactABlockTaskFactory (idleABlock 0).meta) :=
  ⟨rfl, rfl, rfl, by decide, rfl, rfl⟩

/-! Claims C9 and C10: `GetValue`. -/

/-- Claim C9: for every block, transaction, row and column, if the MVCC handle
reports the row deleted at `ts = txn.startTs`, `GetValue` returns the NotFound
error and no value, and its only call is the delete check: neither the column
chain nor the base storage is consulted. -/
theorem GetValue_deleted (blk : dataBlock) (txn : AsyncTxn) (row col : Nat)
    (hdel : blk.mvcc.IsDeletedLocked row txn.StartTS = (true, none)) :
    GetValue blk txn row col
      = { result := Exec.returned (none, some Error.TxnErrNotFound),
          log := [Access.IsDeletedLocked row txn.StartTS] } := by
  unfold GetValue
  simp [hdel]

/-- Witness of claim C9, scenario S4: after the delete of row 0 committed at 18,
T9 with start-ts 25 gets NotFound for row 0, column 1. -/
theorem GetValue_deleted_witness :
    s4Block.mvcc.IsDeletedLocked 0 25 = (true, none)
      ∧ GetValue s4Block { ID := 9, StartTS := 25 } 0 1
          = { result := Exec.returned (none, some Error.TxnErrNotFound),
              log := [Access.IsDeletedLocked 0 25] } :=
  ⟨by decide, GetValue_deleted s4Block { ID := 9, StartTS := 25 } 0 1 (by decide)⟩

/-- The base read of an appendable block whose node is pinned, with a row visible
at the start timestamp and a node copy that holds the row. -/
theorem GetValueBase_appendable (blk : dataBlock) (txn : AsyncTxn) (row col : Nat)
    (log : List Access) (maxRow : Nat) (xs : List Value) (val : Value)
    (happ : blk.meta.IsAppendable = true) (hpin : blk.node.pin = none)
    (hvis : blk.mvcc.GetMaxVisibleRowLocked txn.StartTS = (maxRow, true, none))
    (hvec : (blk.node.GetVectorCopy maxRow col).1 = some xs) (hrow : xs[row]? = some val) :
    GetValueBase blk txn row col log
      = { result := Exec.returned (some val, none),
          log := log ++ [Access.getVectorCopy txn.StartTS col] } := by
  have hview : (getVectorCopy blk txn.StartTS col).1
      = some { Ts := txn.StartTS, ColIdx := col, RawVec := some xs } := by
    unfold getVectorCopy
    rw [hpin, hvis]
    simp [hvec]
  unfold GetValueBase
  simp [happ, hview, readRawVec, computeGetValue, hrow]

/-- The base read of a sealed block whose column file holds the row. -/
theorem GetValueBase_sealed (blk : dataBlock) (txn : AsyncTxn) (row col : Nat)
    (log : List Access) (val : Value)
    (hseal : blk.meta.IsAppendable = false)
    (hrow : (blk.file.ReadFrom col).1[row]? = some val) :
    GetValueBase blk txn row col log
      = { result := Exec.returned (some val, none),
          log := log ++ [Access.getVectorWrapper col] } := by
  unfold GetValueBase
  simp [hseal, readRawVec, computeGetValue, getVectorWrapper, NewColumnView, hrow]

/-- After a chain miss on a row that is not deleted, `GetValue` is the base
read. -/
theorem GetValue_chain_miss (blk : dataBlock) (txn : AsyncTxn) (row col : Nat)
    (x : Option Value) (e : Error)
    (hdel : blk.mvcc.IsDeletedLocked row txn.StartTS = (false, none))
    (hchain : blk.mvcc.GetValueLocked col row txn.StartTS = (x, some e))
    (he : e ≠ Error.TxnInternalErr) :
    GetValue blk txn row col
      = GetValueBase blk txn row col
          [Access.IsDeletedLocked row txn.StartTS, Access.GetValueLocked col row txn.StartTS] := by
  unfold GetValue
  simp [hdel, hchain, he]

/-- Claim C10, amended: for every row not deleted at `ts = txn.startTs`: if the
column chain yields a value `v`, `GetValue` returns exactly `v` with no error
and does not read base storage; a transaction-internal error from the chain is
returned unchanged; if the chain yields none (any other error) and the base
vector holds index `row` (for an appendable block: the node is pinned, some row
is visible at `ts` and the node copy cut at `maxVisibleRow(ts)` holds the row;
for a sealed block: the vector read from the column file holds the row),
`GetValue` returns the value at index `row` of that vector. -/
theorem GetValue_not_deleted (blk : dataBlock) (txn : AsyncTxn) (row col : Nat)
    (hdel : blk.mvcc.IsDeletedLocked row txn.StartTS = (false, none)) :
    (∀ v, blk.mvcc.GetValueLocked col row txn.StartTS = (some v, none) →
        GetValue blk txn row col
          = { result := Exec.returned (some v, none),
              log := [Access.IsDeletedLocked row txn.StartTS,
                      Access.GetValueLocked col row txn.StartTS] })
      ∧ (∀ x, blk.mvcc.GetValueLocked col row txn.StartTS = (x, some Error.TxnInternalErr) →
          GetValue blk txn row col
            = { result := Exec.returned (x, some Error.TxnInternalErr),
                log := [Access.IsDeletedLocked row txn.StartTS,
                        Access.GetValueLocked col row txn.StartTS] })
      ∧ (∀ x e, blk.mvcc.GetValueLocked col row txn.StartTS = (x, some e) →
          e ≠ Error.TxnInternalErr →
          (∀ maxRow xs val, blk.meta.IsAppendable = true → blk.node.pin = none →
              blk.mvcc.GetMaxVisibleRowLocked txn.StartTS = (maxRow, true, none) →
              (blk.node.GetVectorCopy maxRow col).1 = some xs → xs[row]? = some val →
              GetValue blk txn row col
                = { result := Exec.returned (some val, none),
                    log := [Access.IsDeletedLocked row txn.StartTS,
                            Access.GetValueLocked col row txn.StartTS,
                            Access.getVectorCopy txn.StartTS col] })
            ∧ (∀ val, blk.meta.IsAppendable = false →
                (blk.file.ReadFrom col).1[row]? = some val →
                GetValue blk txn row col
                  = { result := Exec.returned (some val, none),
                      log := [Access.IsDeletedLocked row txn.StartTS,
                              Access.GetValueLocked col row txn.StartTS,
                              Access.getVectorWrapper col] })) := by
  refine ⟨?_, ?_, ?_⟩
  · intro v hchain
    unfold GetValue
    simp [hdel, hchain]
  · intro x hchain
    unfold GetValue
    simp [hdel, hchain]
  · intro x e hchain he
    rw [GetValue_chain_miss blk txn row col x e hdel hchain he]
    constructor
    · intro maxRow xs val happ hpin hvis hvec hrow
      rw [GetValueBase_appendable blk txn row col _ maxRow xs val happ hpin hvis hvec hrow]
      rfl
    · intro val hseal hrow
      rw [GetValueBase_sealed blk txn row col _ val hseal hrow]
      rfl

/-- Witness of claim C10, amended: in scenario S2, T5 (start-ts 20) reads the
chain value 11 and T4 (start-ts 12) reads 10 from the node; in scenario S4, T10
(start-ts 17) reads 10 from the node; on the sealed block of scenario S5 a
reader gets 40 from the column file. -/
theorem GetValue_not_deleted_witness :
    s2Block.mvcc.IsDeletedLocked 0 20 = (false, none)
      ∧ (GetValue s2Block { ID := 5, StartTS := 20 } 0 1).result
          = Exec.returned (some 11, none)
      ∧ (GetValue s2Block { ID := 4, StartTS := 12 } 0 1).result
          = Exec.returned (some 10, none)
      ∧ (GetValue s4Block { ID := 10, StartTS := 17 } 0 1).result
          = Exec.returned (some 10, none)
      ∧ (GetValue s5Block { ID := 11, StartTS := 20 } 3 1).result
          = Exec.returned (some 40, none) :=
  ⟨by decide,
   congrArg GetValueRun.result
     ((GetValue_not_deleted s2Block { ID := 5, StartTS := 20 } 0 1 (by decide)).1 11
       (by decide)),
   congrArg GetValueRun.result
     (((GetValue_not_deleted s2Block { ID := 4, StartTS := 12 } 0 1 (by decide)).2.2 none
       Error.TxnErrNotFound (by decide) (by decide)).1 2 [10, 20] 10 rfl rfl (by decide)
       (by decide) (by decide)),
   congrArg GetValueRun.result
     (((GetValue_not_deleted s4Block { ID := 10, StartTS := 17 } 0 1 (by decide)).2.2 none
       Error.TxnErrNotFound (by decide) (by decide)).1 2 [10, 20] 10 rfl rfl (by decide)
       (by decide) (by decide)),
   congrArg GetValueRun.result
     (((GetValue_not_deleted s5Block { ID := 11, StartTS := 20 } 3 1 (by decide)).2.2 none
       Error.TxnErrNotFound (by decide) (by decide)).2 40 rfl (by decide))⟩

/-- Counterexample to claim C10 as stated: in scenario S1 a reader with start-ts
3, before the commit of T1 at 5, asks for row 0 of column 1. The row is not
deleted, the chain yields none and the node holds 10 at index 0, yet no row is
visible at 3, `getVectorCopy` hands back a nil view and `GetValue` panics
instead of returning a value. -/
theorem GetValue_invisible_row_panics :
    s1Base.meta.IsAppendable = true
      ∧ s1Base.mvcc.IsDeletedLocked 0 3 = (false, none)
      ∧ s1Base.mvcc.GetValueLocked 1 0 3 = (none, some Error.TxnErrNotFound)
      ∧ (s1Base.node.GetVectorCopy 2 1).1 = some [10, 20]
      ∧ s1Base.mvcc.GetMaxVisibleRowLocked 3 = (0, false, none)
      ∧ getVectorCopy s1Base 3 1 = (none, none)
      ∧ GetValue s1Base { ID := 2, StartTS := 3 } 0 1
          = { result := Exec.panicked,
              log := [Access.IsDeletedLocked 0 3, Access.GetValueLocked 1 0 3,
                      Access.getVectorCopy 3 1] } := by
  decide

/-! Claims C11 to C13: `Update` and `RangeDelete`. -/

/-- Unlinking the node just linked at the tail restores the chain. -/
theorem eraseIdx_concat_length (l : List UpdateNode) (a : UpdateNode) :
    (l ++ [a]).eraseIdx l.length = l := by
  induction l with
  | nil => rfl
  | cons x xs ih => simp [List.eraseIdx, ih]

/-- Writing the node just linked at the tail. -/
theorem set_concat_length {α : Type} (l : List α) (a b : α) :
    (l ++ [a]).set l.length b = l ++ [b] := by
  induction l with
  | nil => rfl
  | cons x xs ih => simp [List.set, ih]

/-- Reading the node just linked at the tail. -/
theorem getElem?_concat_length_self {α : Type} (l : List α) (a : α) :
    (l ++ [a])[l.length]? = some a := by
  induction l with
  | nil => rfl
  | cons x xs ih => simp [ih]

/-- Writing back the chain a column already has changes nothing. -/
theorem set_of_getElem? {α : Type} (l : List α) (i : Nat) (a : α) (h : l[i]? = some a) :
    l.set i a = l := by
  induction l generalizing i with
  | nil => rfl
  | cons x xs ih =>
    cases i with
    | zero =>
      simp at h
      simp [h]
    | succ k =>
      simp at h
      simp [ih k h]

/-- A failed `TryUpdateNodeLocked` leaves the chain it was given. -/
theorem TryUpdateNodeLocked_of_err (chain : List UpdateNode) (row : Nat) (v : Value)
    (node : Nat) (h : (TryUpdateNodeLocked chain row v node).1 ≠ none) :
    (TryUpdateNodeLocked chain row v node).2 = chain := by
  unfold TryUpdateNodeLocked at h ⊢
  simp only at h ⊢
  split_ifs with hc
  · rfl
  · rw [if_neg hc] at h
    split at h <;> simp at h

/-- A successful `TryUpdateNodeLocked` on the node just linked at the tail
leaves the chain with that node carrying the one write. -/
theorem TryUpdateNodeLocked_of_ok (chain : List UpdateNode) (txn : AsyncTxn) (row : Nat)
    (v : Value)
    (h : (TryUpdateNodeLocked (AddNodeLocked chain txn).1 row v (AddNodeLocked chain txn).2).1
      = none) :
    (TryUpdateNodeLocked (AddNodeLocked chain txn).1 row v (AddNodeLocked chain txn).2).2
      = chain ++ [{ commitTs := 0, vals := [(row, v)], txn := some txn.ID }] := by
  unfold TryUpdateNodeLocked at h ⊢
  simp only [AddNodeLocked] at h ⊢
  split_ifs with hc
  · rw [if_pos hc] at h
    simp at h
  · rw [getElem?_concat_length_self]
    simp only [set_concat_length]
    rfl

/-- The result of `Update` on a column that has a chain. -/
theorem Update_eq (blk : chainBlock) (txn : AsyncTxn) (row col : Nat) (v : Value)
    (chain : List UpdateNode) (hchain : blk.mvcc.columns[col]? = some chain) :
    Update blk txn row col v
      = if blk.mvcc.CheckNotDeleted row row txn.StartTS = none then
          if (TryUpdateNodeLocked (AddNodeLocked chain txn).1 row v (AddNodeLocked chain txn).2).1
              = none then
            Exec.returned
              { node := some { commitTs := 0, vals := [(row, v)], txn := some txn.ID },
                err := none,
                mvcc := { blk.mvcc with
                          columns := blk.mvcc.columns.set col
                            (chain ++ [{ commitTs := 0, vals := [(row, v)], txn := some txn.ID }]) } }
          else
            Exec.returned
              { node := some { commitTs := 0, vals := [], txn := some txn.ID },
                err := (TryUpdateNodeLocked (AddNodeLocked chain txn).1 row v
                  (AddNodeLocked chain txn).2).1,
                mvcc := blk.mvcc }
        else
          Exec.returned
            { node := none, err := blk.mvcc.CheckNotDeleted row row txn.StartTS,
              mvcc := blk.mvcc } := by
  unfold Update updateWithFineLock
  simp only [hchain]
  by_cases hd : blk.mvcc.CheckNotDeleted row row txn.StartTS = none
  · simp only [hd, if_true]
    by_cases ht : (TryUpdateNodeLocked (AddNodeLocked chain txn).1 row v
        (AddNodeLocked chain txn).2).1 = none
    · have h2 := TryUpdateNodeLocked_of_ok chain txn row v ht
      simp only [ht, ne_eq, not_true_eq_false, if_false, if_true, h2]
      simp [AddNodeLocked, getElem?_concat_length_self]
    · have h2 := TryUpdateNodeLocked_of_err _ row v _ ht
      simp only [ht, ne_eq, not_false_eq_true, if_true, if_false, h2]
      simp only [AddNodeLocked, DeleteNodeLocked, eraseIdx_concat_length,
        getElem?_concat_length_self, set_of_getElem? _ _ _ hchain]
  · simp only [hd, if_false]

/-- The result of `RangeDelete`. -/
theorem RangeDelete_eq (blk : chainBlock) (txn : AsyncTxn) (start stop : Nat) :
    RangeDelete blk txn start stop
      = if blk.mvcc.CheckNotDeleted start stop txn.StartTS = none then
          if blk.mvcc.CheckNotUpdated start stop txn.StartTS = none then
            { node := some { start := start, stop := stop, commitTs := 0, txn := some txn.ID },
              err := none,
              mvcc := { blk.mvcc with
                        deletes := blk.mvcc.deletes
                          ++ [{ start := start, stop := stop, commitTs := 0,
                                txn := some txn.ID }] } }
          else
            { node := none, err := blk.mvcc.CheckNotUpdated start stop txn.StartTS,
              mvcc := blk.mvcc }
        else
          { node := none, err := blk.mvcc.CheckNotDeleted start stop txn.StartTS,
            mvcc := blk.mvcc } := by
  unfold RangeDelete
  by_cases hd : blk.mvcc.CheckNotDeleted start stop txn.StartTS = none
  · by_cases hu : blk.mvcc.CheckNotUpdated start stop txn.StartTS = none
    · simp only [hd, hu, if_true]
      simp [MVCCChains.CreateDeleteNode, MVCCChains.RangeDeleteLocked,
        getElem?_concat_length_self, set_concat_length]
    · simp only [hd, hu, if_true, if_false]
  · simp only [hd, if_false]

/-- Claim C11, amended: for every sealed (non-appendable) block, `Update` and
`RangeDelete` behave exactly as on an appendable block with the same chains,
for every transaction, row or range, column and value: the appendable flag is
not consulted, no call fails with the ReadOnlyBlock error, and a call that
fails leaves the column chains and the delete chain unchanged. -/
theorem sealed_Update_RangeDelete (blk : chainBlock) (txn : AsyncTxn) (row col : Nat)
    (v : Value) (start stop : Nat) (_hseal : blk.meta.IsAppendable = false) :
    Update blk txn row col v
        = Update { blk with meta := { blk.meta with IsAppendable := true } } txn row col v
      ∧ RangeDelete blk txn start stop
        = RangeDelete { blk with meta := { blk.meta with IsAppendable := true } } txn start stop
      ∧ (∀ r, Update blk txn row col v = Exec.returned r →
          r.err ≠ some Error.ReadOnlyBlock ∧ (r.err ≠ none → r.mvcc = blk.mvcc))
      ∧ (RangeDelete blk txn start stop).err ≠ some Error.ReadOnlyBlock
      ∧ ((RangeDelete blk txn start stop).err ≠ none →
          (RangeDelete blk txn start stop).mvcc = blk.mvcc) := by
  refine ⟨rfl, rfl, ?_, ?_, ?_⟩
  · intro r hr
    cases hchain : blk.mvcc.columns[col]? with
    | none =>
      unfold Update updateWithFineLock at hr
      simp only [hchain] at hr
      split_ifs at hr with hd
      have hr2 := (Exec.returned.inj hr).symm
      subst hr2
      constructor
      · unfold MVCCChains.CheckNotDeleted
        split_ifs <;> simp
      · intro _
        rfl
    | some chain =>
      rw [Update_eq blk txn row col v chain hchain] at hr
      split_ifs at hr with hd ht
      · have hr2 := (Exec.returned.inj hr).symm
        subst hr2
        simp
      · have hr2 := (Exec.returned.inj hr).symm
        subst hr2
        constructor
        · unfold TryUpdateNodeLocked
          simp only
          split_ifs
          · simp
          · split <;> simp
        · intro _
          rfl
      · have hr2 := (Exec.returned.inj hr).symm
        subst hr2
        constructor
        · unfold MVCCChains.CheckNotDeleted
          split_ifs <;> simp
        · intro _
          rfl
  · rw [RangeDelete_eq]
    split_ifs
    · simp
    · unfold MVCCChains.CheckNotUpdated
      split_ifs <;> simp
    · unfold MVCCChains.CheckNotDeleted
      split_ifs <;> simp
  · rw [RangeDelete_eq]
    split_ifs with hd hu
    · simp
    · intro _
      rfl
    · intro _
      rfl

/-- Witness of claim C11, amended: on the sealed block of scenario S5 an update
of row 0 that conflicts with nothing and a delete of rows 1 to 2 give what
they give on the appendable twin. -/
theorem sealed_Update_RangeDelete_witness :
    s5Write.meta.IsAppendable = false
      ∧ Update s5Write { ID := 9, StartTS := 25 } 0 1 12
        = Update { s5Write with meta := { s5Write.meta with IsAppendable := true } }
            { ID := 9, StartTS := 25 } 0 1 12
      ∧ RangeDelete s5Write { ID := 9, StartTS := 25 } 1 2
        = RangeDelete { s5Write with meta := { s5Write.meta with IsAppendable := true } }
            { ID := 9, StartTS := 25 } 1 2 :=
  ⟨rfl, (sealed_Update_RangeDelete s5Write { ID := 9, StartTS := 25 } 0 1 12 1 2 rfl).1,
    (sealed_Update_RangeDelete s5Write { ID := 9, StartTS := 25 } 0 1 12 1 2 rfl).2.1⟩

/-- Counterexample to claim C11 as stated: on the sealed block of scenario S5,
`Update` of row 0, column 1 returns no error and links a node of the
transaction to the column chain, and `RangeDelete` of rows 1 to 2 returns no
error and links a delete node. -/
theorem sealed_Update_succeeds :
    s5Write.meta.IsAppendable = false
      ∧ Update s5Write { ID := 9, StartTS := 25 } 0 1 12
        = Exec.returned
            { node := some { commitTs := 0, vals := [(0, 12)], txn := some 9 },
              err := none,
              mvcc := { s5Write.mvcc with
                        columns := [[], [{ commitTs := 0, vals := [(0, 12)], txn := some 9 }]] } }
      ∧ RangeDelete s5Write { ID := 9, StartTS := 25 } 1 2
        = { node := some { start := 1, stop := 2, commitTs := 0, txn := some 9 },
            err := none,
            mvcc := { s5Write.mvcc with
                      deletes := [{ start := 1, stop := 2, commitTs := 0, txn := some 9 }] } } := by
  decide

/-- Claim C12: `Update` is atomic on failure. On a column that has a chain the
call returns; it returns an error exactly when the row is deleted at
`txn.startTs` or `TryUpdate` reports a conflict, and then every column chain
(and the delete chain) is as before the call, no half-built node staying
linked; when the checks succeed exactly one new node bound to `txn`, carrying
`row → v`, is linked to the chain of `col` and no other chain changes. -/
theorem Update_atomic (blk : chainBlock) (txn : AsyncTxn) (row col : Nat) (v : Value)
    (chain : List UpdateNode) (hchain : blk.mvcc.columns[col]? = some chain) :
    ∃ r, Update blk txn row col v = Exec.returned r
      ∧ (r.err ≠ none → r.mvcc = blk.mvcc)
      ∧ (r.err = none ↔
          blk.mvcc.CheckNotDeleted row row txn.StartTS = none
            ∧ (TryUpdateNodeLocked (AddNodeLocked chain txn).1 row v
                (AddNodeLocked chain txn).2).1 = none)
      ∧ (r.err = none →
          r.node = some { commitTs := 0, vals := [(row, v)], txn := some txn.ID }
            ∧ r.mvcc.columns
                = blk.mvcc.columns.set col
                    (chain ++ [{ commitTs := 0, vals := [(row, v)], txn := some txn.ID }])
            ∧ r.mvcc.deletes = blk.mvcc.deletes) := by
  rw [Update_eq blk txn row col v chain hchain]
  by_cases hd : blk.mvcc.CheckNotDeleted row row txn.StartTS = none
  · by_cases ht : (TryUpdateNodeLocked (AddNodeLocked chain txn).1 row v
        (AddNodeLocked chain txn).2).1 = none
    · rw [if_pos hd, if_pos ht]
      exact ⟨_, rfl, fun h => absurd rfl h, ⟨fun _ => ⟨hd, ht⟩, fun _ => rfl⟩,
        fun _ => ⟨rfl, rfl, rfl⟩⟩
    · rw [if_pos hd, if_neg ht]
      exact ⟨_, rfl, fun _ => rfl, ⟨fun h => absurd h ht, fun h => absurd h.2 ht⟩,
        fun h => absurd h ht⟩
  · rw [if_neg hd]
    exact ⟨_, rfl, fun _ => rfl, ⟨fun h => absurd h hd, fun h => absurd h.1 hd⟩,
      fun h => absurd h hd⟩

/-- Witness of claim C12, scenario S3: T6 updates row 0, column 1 and its node is
linked; T7 then gets WriteConflict and the chains stay as T6 left them; in
scenario S4 an update of the deleted row 0 at start-ts 25 gets AlreadyDeleted
and changes nothing. -/
theorem Update_atomic_witness :
    (∃ r, Update s1Write { ID := 6, StartTS := 10 } 0 1 11 = Exec.returned r
        ∧ r.err = none ∧ r.mvcc = s3Write.mvcc)
      ∧ (∃ r, Update s3Write { ID := 7, StartTS := 10 } 0 1 12 = Exec.returned r
        ∧ r.err = some Error.WriteConflict ∧ r.mvcc = s3Write.mvcc)
      ∧ (∃ r, Update s4Write { ID := 9, StartTS := 25 } 0 1 12 = Exec.returned r
        ∧ r.err = some Error.AlreadyDeleted ∧ r.mvcc = s4Write.mvcc) := by
  refine ⟨?_, ?_, ?_⟩
  · obtain ⟨r, hr, -, -, -⟩ :=
      Update_atomic s1Write { ID := 6, StartTS := 10 } 0 1 11 [] rfl
    refine ⟨r, hr, ?_, ?_⟩
    · have h : Update s1Write { ID := 6, StartTS := 10 } 0 1 11
          = Exec.returned
              { node := some { commitTs := 0, vals := [(0, 11)], txn := some 6 },
                err := none, mvcc := s3Write.mvcc } := by decide
      rw [h] at hr
      rw [← Exec.returned.inj hr]
    · have h : Update s1Write { ID := 6, StartTS := 10 } 0 1 11
          = Exec.returned
              { node := some { commitTs := 0, vals := [(0, 11)], txn := some 6 },
                err := none, mvcc := s3Write.mvcc } := by decide
      rw [h] at hr
      rw [← Exec.returned.inj hr]
  · obtain ⟨r, hr, hsame, -, -⟩ :=
      Update_atomic s3Write { ID := 7, StartTS := 10 } 0 1 12
        [{ commitTs := 0, vals := [(0, 11)], txn := some 6 }] rfl
    have h : Update s3Write { ID := 7, StartTS := 10 } 0 1 12
        = Exec.returned
            { node := some { commitTs := 0, vals := [], txn := some 7 },
              err := some Error.WriteConflict, mvcc := s3Write.mvcc } := by decide
    have herr : r.err = some Error.WriteConflict := by
      rw [h] at hr
      rw [← Exec.returned.inj hr]
    exact ⟨r, hr, herr, hsame (by rw [herr]; simp)⟩
  · obtain ⟨r, hr, hsame, -, -⟩ :=
      Update_atomic s4Write { ID := 9, StartTS := 25 } 0 1 12 [] rfl
    have h : Update s4Write { ID := 9, StartTS := 25 } 0 1 12
        = Exec.returned
            { node := none, err := some Error.AlreadyDeleted, mvcc := s4Write.mvcc } := by decide
    have herr : r.err = some Error.AlreadyDeleted := by
      rw [h] at hr
      rw [← Exec.returned.inj hr]
    exact ⟨r, hr, herr, hsame (by rw [herr]; simp)⟩

/-- Claim C13: `RangeDelete(txn, start, end)` creates a delete node bound to `txn`
covering `[start, end]`, linked at the tail of the delete chain, if and only if
`CheckNotDeleted` and `CheckNotUpdated` at `txn.startTs` both succeed;
otherwise it returns the error of the first failing check (the not-deleted
check first), returns no node and leaves the chains unchanged. -/
theorem RangeDelete_spec (blk : chainBlock) (txn : AsyncTxn) (start stop : Nat) :
    ((RangeDelete blk txn start stop).node ≠ none ↔
        blk.mvcc.CheckNotDeleted start stop txn.StartTS = none
          ∧ blk.mvcc.CheckNotUpdated start stop txn.StartTS = none)
      ∧ (blk.mvcc.CheckNotDeleted start stop txn.StartTS = none →
          blk.mvcc.CheckNotUpdated start stop txn.StartTS = none →
          RangeDelete blk txn start stop
            = { node := some { start := start, stop := stop, commitTs := 0,
                               txn := some txn.ID },
                err := none,
                mvcc := { blk.mvcc with
                          deletes := blk.mvcc.deletes
                            ++ [{ start := start, stop := stop, commitTs := 0,
                                  txn := some txn.ID }] } })
      ∧ (∀ e, blk.mvcc.CheckNotDeleted start stop txn.StartTS = some e →
          RangeDelete blk txn start stop = { node := none, err := some e, mvcc := blk.mvcc })
      ∧ (∀ e, blk.mvcc.CheckNotDeleted start stop txn.StartTS = none →
          blk.mvcc.CheckNotUpdated start stop txn.StartTS = some e →
          RangeDelete blk txn start stop = { node := none, err := some e, mvcc := blk.mvcc }) := by
  rw [RangeDelete_eq]
  by_cases hd : blk.mvcc.CheckNotDeleted start stop txn.StartTS = none
  · by_cases hu : blk.mvcc.CheckNotUpdated start stop txn.StartTS = none
    · rw [if_pos hd, if_pos hu]
      refine ⟨⟨fun _ => ⟨hd, hu⟩, fun _ => by simp⟩, fun _ _ => rfl, fun e he => ?_,
        fun e _ he => ?_⟩
      · rw [hd] at he
        exact Option.noConfusion he
      · rw [hu] at he
        exact Option.noConfusion he
    · rw [if_pos hd, if_neg hu]
      refine ⟨⟨fun h => absurd rfl h, fun h => absurd h.2 hu⟩, fun _ h => absurd h hu,
        fun e he => ?_, fun e _ he => ?_⟩
      · rw [hd] at he
        exact Option.noConfusion he
      · rw [he]
  · rw [if_neg hd]
    refine ⟨⟨fun h => absurd rfl h, fun h => absurd h.1 hd⟩, fun h => absurd h hd,
      fun e he => ?_, fun e h => absurd h hd⟩
    rw [he]

/-- Witness of claim C13: in scenario S1, T8 (start-ts 10) deletes rows 0 to 0
and its node is linked; in scenario S4 a delete of rows 0 to 1 at start-ts 25
gets the AlreadyDeleted of the first check; in scenario S3 it gets the
WriteConflict of the second check; both leave the chains unchanged. -/
theorem RangeDelete_spec_witness :
    RangeDelete s1Write { ID := 8, StartTS := 10 } 0 0
        = { node := some { start := 0, stop := 0, commitTs := 0, txn := some 8 },
            err := none,
            mvcc := { s1Write.mvcc with
                      deletes := [{ start := 0, stop := 0, commitTs := 0, txn := some 8 }] } }
      ∧ RangeDelete s4Write { ID := 9, StartTS := 25 } 0 1
        = { node := none, err := some Error.AlreadyDeleted, mvcc := s4Write.mvcc }
      ∧ RangeDelete s3Write { ID := 9, StartTS := 25 } 0 1
        = { node := none, err := some Error.WriteConflict, mvcc := s3Write.mvcc } :=
  ⟨(RangeDelete_spec s1Write { ID := 8, StartTS := 10 } 0 0).2.1 (by decide) (by decide),
   (RangeDelete_spec s4Write { ID := 9, StartTS := 25 } 0 1).2.2.1 Error.AlreadyDeleted
     (by decide),
   (RangeDelete_spec s3Write { ID := 9, StartTS := 25 } 0 1).2.2.2 Error.WriteConflict
     (by decide) (by decide)⟩

/-! Claim C14: `GetByFilter` on an appendable block. -/

/-- Whatever the tombstone map holds, the test `!existed || deleted` of the
source succeeds on the two results of `IsKeyDeleted` in the order of the
spec. -/
theorem IsKeyDeleted_fallthrough (idx : Index) (key : Value) (ts : Nat) :
    (idx.IsKeyDeleted key ts).2 = false ∨ (idx.IsKeyDeleted key ts).1 = true := by
  unfold Index.IsKeyDeleted
  cases idx.deleted.lookup key with
  | none => left; rfl
  | some d => right; rfl

/-- A result of `ablkGetByFilter` without error names the active row of the
key, visible and not deleted at `ts`. -/
theorem ablkGetByFilter_found (blk : dataBlock) (ts : Nat) (filter : Filter) (r : Nat)
    (hres : ablkGetByFilter blk ts filter = (r, none)) :
    blk.index.GetActiveRow filter.Val = (r, none)
      ∧ blk.mvcc.IsVisibleLocked r ts = (true, none)
      ∧ blk.mvcc.IsDeletedLocked r ts = (false, none) := by
  have hfall := IsKeyDeleted_fallthrough blk.index filter.Val ts
  unfold ablkGetByFilter at hres
  rcases hact : blk.index.GetActiveRow filter.Val with ⟨o, e⟩
  rw [hact] at hres
  cases e with
  | some err =>
    by_cases hnf : err = Error.DataErrNotFound
    · simp [hnf, hfall] at hres
    · simp [hnf] at hres
  | none =>
    rcases hvis : blk.mvcc.IsVisibleLocked o ts with ⟨v, e2⟩
    simp only [hvis] at hres
    cases e2 with
    | some err => simp at hres
    | none =>
      cases v with
      | false => simp [hfall] at hres
      | true =>
        rcases hdel : blk.mvcc.IsDeletedLocked o ts with ⟨d, e3⟩
        simp only [hdel] at hres
        cases e3 with
        | some err => simp at hres
        | none =>
          cases d with
          | true => simp at hres
          | false =>
            simp at hres
            subst hres
            exact ⟨rfl, hvis, hdel⟩

/-- Claim C14: for every appendable block, key and read timestamp `ts`. If
`GetByFilter` returns offset `r` with no error, then `r` is the active row of
the key in the primary-key index, `r` is visible at `ts` and `r` is not deleted
at `ts`; conversely such a row is returned with no error. If the key has no
active row, or its active row is not visible at `ts`, or its active row is
visible and deleted at `ts`, the result is NotFound. -/
theorem GetByFilter_appendable (blk : dataBlock) (txn : AsyncTxn) (filter : Filter)
    (happ : blk.meta.IsAppendable = true) (hop : filter.Op = FilterOp.FilterEq) :
    (∀ r, GetByFilter blk txn filter = Exec.returned (r, none) ↔
        (blk.index.GetActiveRow filter.Val = (r, none)
          ∧ blk.mvcc.IsVisibleLocked r txn.StartTS = (true, none)
          ∧ blk.mvcc.IsDeletedLocked r txn.StartTS = (false, none)))
      ∧ (∀ r, blk.index.GetActiveRow filter.Val = (r, some Error.DataErrNotFound) →
          GetByFilter blk txn filter = Exec.returned (r, some Error.DataErrNotFound))
      ∧ (∀ r, blk.index.GetActiveRow filter.Val = (r, none) →
          blk.mvcc.IsVisibleLocked r txn.StartTS = (false, none) →
          GetByFilter blk txn filter = Exec.returned (r, some Error.DataErrNotFound))
      ∧ (∀ r, blk.index.GetActiveRow filter.Val = (r, none) →
          blk.mvcc.IsVisibleLocked r txn.StartTS = (true, none) →
          blk.mvcc.IsDeletedLocked r txn.StartTS = (true, none) →
          GetByFilter blk txn filter = Exec.returned (r, some Error.DataErrNotFound)) := by
  have hfall := IsKeyDeleted_fallthrough blk.index filter.Val txn.StartTS
  refine ⟨?_, ?_, ?_, ?_⟩
  · intro r
    constructor
    · intro hres
      unfold GetByFilter at hres
      rw [if_neg (by simp [hop]), if_pos happ] at hres
      exact ablkGetByFilter_found blk txn.StartTS filter r (Exec.returned.inj hres)
    · rintro ⟨hact, hvis, hdel⟩
      unfold GetByFilter ablkGetByFilter
      simp [happ, hop, hact, hvis, hdel]
  · intro r hact
    unfold GetByFilter ablkGetByFilter
    simp [happ, hop, hact, hfall]
  · intro r hact hvis
    unfold GetByFilter ablkGetByFilter
    simp [happ, hop, hact, hvis, hfall]
  · intro r hact hvis hdel
    unfold GetByFilter ablkGetByFilter
    simp [happ, hop, hact, hvis, hdel]

/-- Witness of claim C14, scenario S1: a reader at 10 finds key 1 at row 0 and
no key 3. Scenario S4: a reader at 3 does not find key 1, whose row 0 was
appended at 5; a reader at 25 does not find key 1, whose row 0 was deleted at
18; a reader at 17 does not find key 2 once the key has left the active map for
the tombstones. -/
theorem GetByFilter_appendable_witness :
    GetByFilter s1Base { ID := 2, StartTS := 10 } { Op := FilterOp.FilterEq, Val := 1 }
        = Exec.returned (0, none)
      ∧ GetByFilter s1Base { ID := 2, StartTS := 10 } { Op := FilterOp.FilterEq, Val := 3 }
        = Exec.returned (0, some Error.DataErrNotFound)
      ∧ GetByFilter s4Block { ID := 9, StartTS := 3 } { Op := FilterOp.FilterEq, Val := 1 }
        = Exec.returned (0, some Error.DataErrNotFound)
      ∧ GetByFilter s4Block { ID := 9, StartTS := 25 } { Op := FilterOp.FilterEq, Val := 1 }
        = Exec.returned (0, some Error.DataErrNotFound)
      ∧ GetByFilter s4KeyBlock { ID := 10, StartTS := 17 } { Op := FilterOp.FilterEq, Val := 2 }
        = Exec.returned (0, some Error.DataErrNotFound) :=
  ⟨((GetByFilter_appendable s1Base { ID := 2, StartTS := 10 }
        { Op := FilterOp.FilterEq, Val := 1 } rfl rfl).1 0).2 (by decide),
   (GetByFilter_appendable s1Base { ID := 2, StartTS := 10 }
        { Op := FilterOp.FilterEq, Val := 3 } rfl rfl).2.1 0 (by decide),
   (GetByFilter_appendable s4Block { ID := 9, StartTS := 3 }
        { Op := FilterOp.FilterEq, Val := 1 } rfl rfl).2.2.1 0 (by decide) (by decide),
   (GetByFilter_appendable s4Block { ID := 9, StartTS := 25 }
        { Op := FilterOp.FilterEq, Val := 1 } rfl rfl).2.2.2 0 (by decide) (by decide)
      (by decide),
   (GetByFilter_appendable s4KeyBlock { ID := 10, StartTS := 17 }
        { Op := FilterOp.FilterEq, Val := 2 } rfl rfl).2.1 0 (by decide)⟩

/-! Claim C15: `BatchDedup` on a sealed block. -/

/-- The probe finds a row exactly when some row outside the delete mask holds
the value. -/
theorem CheckRowExists_existed (vec : List Value) (v : Value) (mask : Option (List Nat)) :
    (CheckRowExists vec v mask).2 = true ↔ ∃ r, vec[r]? = some v ∧ r ∉ mask.getD [] := by
  unfold CheckRowExists
  cases hfind : (List.range vec.length).find?
      (fun r => decide (vec[r]? = some v) && !((mask.getD []).contains r)) with
  | none =>
    simp only [Bool.false_eq_true, false_iff, not_exists, not_and, not_not]
    intro r hr
    rw [List.find?_eq_none] at hfind
    have hlt : r < vec.length := by
      by_contra hge
      rw [List.getElem?_eq_none (by omega)] at hr
      exact Option.noConfusion hr
    have := hfind r (List.mem_range.mpr hlt)
    simpa [hr] using this
  | some r =>
    simp only [true_iff]
    have := List.find?_some hfind
    simp only [Bool.and_eq_true, decide_eq_true_eq, Bool.not_eq_true'] at this
    have hnot : r ∉ mask.getD [] := by simpa using this.2
    exact ⟨r, this.1, hnot⟩

/-- The scan of the selected keys returns Duplicated exactly when the operation
fails on some selected key, and no error otherwise. -/
theorem ProcessVector_dedup (pks : List Value) (p : Value → Prop) [DecidablePred p]
    (keyselects : List Nat) :
    ((∃ i ∈ keyselects, ∃ key, pks[i]? = some key ∧ p key) →
        ProcessVector pks (fun v _ => if p v then some Error.ErrDuplicated else none) keyselects
          = some Error.ErrDuplicated)
      ∧ (¬(∃ i ∈ keyselects, ∃ key, pks[i]? = some key ∧ p key) →
        ProcessVector pks (fun v _ => if p v then some Error.ErrDuplicated else none) keyselects
          = none) := by
  induction keyselects with
  | nil =>
    constructor
    · rintro ⟨i, hi, _⟩
      cases hi
    · intro _
      rfl
  | cons k ks ih =>
    constructor
    · rintro ⟨i, hi, key, hkey, hp⟩
      unfold ProcessVector
      cases hk : pks[k]? with
      | none =>
        simp only
        apply ih.1
        rcases List.mem_cons.mp hi with h | h
        · rw [h, hk] at hkey
          exact Option.noConfusion hkey
        · exact ⟨i, h, key, hkey, hp⟩
      | some w =>
        simp only
        by_cases hw : p w
        · simp [hw]
        · simp only [hw, if_false]
          apply ih.1
          rcases List.mem_cons.mp hi with h | h
          · rw [h, hk] at hkey
            rw [Option.some.inj hkey] at hw
            exact absurd hp hw
          · exact ⟨i, h, key, hkey, hp⟩
    · intro hno
      have hks : ¬(∃ i ∈ ks, ∃ key, pks[i]? = some key ∧ p key) := by
        rintro ⟨i, hi, rest⟩
        exact hno ⟨i, List.mem_cons_of_mem _ hi, rest⟩
      unfold ProcessVector
      cases hk : pks[k]? with
      | none =>
        simp only
        exact ih.2 hks
      | some w =>
        simp only
        have hw : ¬p w := fun hp => hno ⟨k, List.mem_cons_self _ _, w, hk, hp⟩
        simp only [hw, if_false]
        exact ih.2 hks

/-- The result of `BatchDedup` on a sealed block whose index names candidates and
whose primary-key column and delete mask are read without error. -/
theorem BatchDedup_scan (blk : dataBlock) (txn : AsyncTxn) (pks : List Value)
    (rowmask : Option (List Nat)) (keyselects : List Nat) (e : Error) (vec : List Value)
    (mask : Option (List Nat)) (hseal : blk.meta.IsAppendable = false)
    (hidx : blk.index.BatchDedup pks rowmask = (some keyselects, some e))
    (hvec : getVectorWrapper blk blk.meta.schema.PrimaryKey = (vec, none))
    (hmask : blk.mvcc.CollectDeletesLocked txn.StartTS = (mask, none)) :
    BatchDedup blk txn pks rowmask
      = Exec.returned (ProcessVector pks
          (fun v _ => if (CheckRowExists vec v mask).2 = true then some Error.ErrDuplicated
            else none) keyselects) := by
  unfold BatchDedup GetPKColumnDataOptimized FillColumnDeletes
  cases mask with
  | none => simp [hseal, hidx, hvec, hmask, NewColumnView]
  | some m => simp [hseal, hidx, hvec, hmask, NewColumnView]

/-- No selected key collides when the probe fails on each of them. -/
theorem no_collision_of_probe (pks vec : List Value) (mask : Option (List Nat))
    (keyselects : List Nat)
    (h : keyselects.all (fun i =>
      match pks[i]? with
      | some key => !(CheckRowExists vec key mask).2
      | none => true) = true) :
    ¬(∃ i ∈ keyselects, ∃ key, pks[i]? = some key
        ∧ ∃ r, vec[r]? = some key ∧ r ∉ mask.getD []) := by
  rintro ⟨i, hi, key, hkey, hrow⟩
  have hi2 := List.all_eq_true.mp h i hi
  rw [hkey] at hi2
  simp only [Bool.not_eq_true'] at hi2
  rw [(CheckRowExists_existed vec key mask).mpr hrow] at hi2
  exact Bool.noConfusion hi2

/-- Claim C15, amended: for every sealed block and key batch, `BatchDedup` returns
no error when the immutable index reports no candidate. When the index reports
PossibleDuplicate with candidate positions `K` and the primary-key column and
the delete mask visible at `txn.startTs` are read without error, it returns
Duplicated if and only if some key at a position in `K` equals a value of the
primary-key column at a row that is not in the delete mask, and no error
otherwise. An error of reading the column or the mask is returned as it is. -/
theorem BatchDedup_sealed (blk : dataBlock) (txn : AsyncTxn) (pks : List Value)
    (rowmask : Option (List Nat)) (hseal : blk.meta.IsAppendable = false) :
    (∀ keyselects, blk.index.BatchDedup pks rowmask = (keyselects, none) →
        BatchDedup blk txn pks rowmask = Exec.returned none)
      ∧ (∀ keyselects e vec mask,
          blk.index.BatchDedup pks rowmask = (some keyselects, some e) →
          getVectorWrapper blk blk.meta.schema.PrimaryKey = (vec, none) →
          blk.mvcc.CollectDeletesLocked txn.StartTS = (mask, none) →
          ((∃ i ∈ keyselects, ∃ key, pks[i]? = some key
                ∧ ∃ r, vec[r]? = some key ∧ r ∉ mask.getD []) →
              BatchDedup blk txn pks rowmask = Exec.returned (some Error.ErrDuplicated))
            ∧ (¬(∃ i ∈ keyselects, ∃ key, pks[i]? = some key
                ∧ ∃ r, vec[r]? = some key ∧ r ∉ mask.getD []) →
              BatchDedup blk txn pks rowmask = Exec.returned none))
      ∧ (∀ keyselects e vec err,
          blk.index.BatchDedup pks rowmask = (some keyselects, some e) →
          getVectorWrapper blk blk.meta.schema.PrimaryKey = (vec, some err) →
          BatchDedup blk txn pks rowmask = Exec.returned (some err))
      ∧ (∀ keyselects e vec mask err,
          blk.index.BatchDedup pks rowmask = (some keyselects, some e) →
          getVectorWrapper blk blk.meta.schema.PrimaryKey = (vec, none) →
          blk.mvcc.CollectDeletesLocked txn.StartTS = (mask, some err) →
          BatchDedup blk txn pks rowmask = Exec.returned (some err)) := by
  refine ⟨?_, ?_, ?_, ?_⟩
  · intro keyselects hidx
    unfold BatchDedup
    simp [hseal, hidx]
  · intro keyselects e vec mask hidx hvec hmask
    rw [BatchDedup_scan blk txn pks rowmask keyselects e vec mask hseal hidx hvec hmask]
    have h := ProcessVector_dedup pks (fun v => (CheckRowExists vec v mask).2 = true) keyselects
    constructor
    · rintro ⟨i, hi, key, hkey, hrow⟩
      exact congrArg Exec.returned
        (h.1 ⟨i, hi, key, hkey, (CheckRowExists_existed vec key mask).mpr hrow⟩)
    · intro hno
      refine congrArg Exec.returned (h.2 ?_)
      rintro ⟨i, hi, key, hkey, hrow⟩
      exact hno ⟨i, hi, key, hkey, (CheckRowExists_existed vec key mask).mp hrow⟩
  · intro keyselects e vec err hidx hvec
    unfold BatchDedup GetPKColumnDataOptimized
    simp [hseal, hidx, hvec]
  · intro keyselects e vec mask err hidx hvec hmask
    unfold BatchDedup GetPKColumnDataOptimized FillColumnDeletes
    simp [hseal, hidx, hvec, hmask, NewColumnView]

/-- Witness of claim C15, amended, on the sealed block of scenario S5 with row 1
(key 2) deleted at 18: without candidate no error; key 3 at candidate position
1 collides; key 3 outside the candidates does not; key 2 collides for a reader
at 17 and not for a reader at 20. -/
theorem BatchDedup_sealed_witness :
    BatchDedup s5Block { ID := 1, StartTS := 20 } [1, 7] none = Exec.returned none
      ∧ BatchDedup (s5DedupBlock [0, 1]) { ID := 1, StartTS := 20 } [7, 3] none
        = Exec.returned (some Error.ErrDuplicated)
      ∧ BatchDedup (s5DedupBlock [0]) { ID := 1, StartTS := 20 } [7, 3] none
        = Exec.returned none
      ∧ BatchDedup (s5DedupBlock [0, 1]) { ID := 1, StartTS := 17 } [7, 2] none
        = Exec.returned (some Error.ErrDuplicated)
      ∧ BatchDedup (s5DedupBlock [0, 1]) { ID := 1, StartTS := 20 } [7, 2] none
        = Exec.returned none :=
  ⟨(BatchDedup_sealed s5Block { ID := 1, StartTS := 20 } [1, 7] none rfl).1 none rfl,
   ((BatchDedup_sealed (s5DedupBlock [0, 1]) { ID := 1, StartTS := 20 } [7, 3] none rfl).2.1
      [0, 1] Error.ErrPossibleDuplicate [1, 2, 3, 4] (some [1]) rfl rfl (by decide)).1
      ⟨1, by decide, 3, by decide, 2, by decide, by decide⟩,
   ((BatchDedup_sealed (s5DedupBlock [0]) { ID := 1, StartTS := 20 } [7, 3] none rfl).2.1
      [0] Error.ErrPossibleDuplicate [1, 2, 3, 4] (some [1]) rfl rfl (by decide)).2
      (no_collision_of_probe [7, 3] [1, 2, 3, 4] (some [1]) [0] (by decide)),
   ((BatchDedup_sealed (s5DedupBlock [0, 1]) { ID := 1, StartTS := 17 } [7, 2] none rfl).2.1
      [0, 1] Error.ErrPossibleDuplicate [1, 2, 3, 4] none rfl rfl (by decide)).1
      ⟨1, by decide, 2, by decide, 1, by decide, by decide⟩,
   ((BatchDedup_sealed (s5DedupBlock [0, 1]) { ID := 1, StartTS := 20 } [7, 2] none rfl).2.1
      [0, 1] Error.ErrPossibleDuplicate [1, 2, 3, 4] (some [1]) rfl rfl (by decide)).2
      (no_collision_of_probe [7, 2] [1, 2, 3, 4] (some [1]) [0, 1] (by decide))⟩

/-- Counterexample to claim C15 as stated: on a sealed block whose index names
candidates 0 and 1 and whose primary-key column cannot be read (error 5),
`BatchDedup` of the keys 7 and 2 returns that error, neither Duplicated nor no
error. -/
theorem BatchDedup_read_error :
    (s5UnreadableBlock [0, 1]).meta.IsAppendable = false
      ∧ (s5UnreadableBlock [0, 1]).index.BatchDedup [7, 2] none
        = (some [0, 1], some Error.ErrPossibleDuplicate)
      ∧ getVectorWrapper (s5UnreadableBlock [0, 1])
          (s5UnreadableBlock [0, 1]).meta.schema.PrimaryKey = ([], some (Error.Other 5))
      ∧ BatchDedup (s5UnreadableBlock [0, 1]) { ID := 1, StartTS := 17 } [7, 2] none
        = Exec.returned (some (Error.Other 5)) := by
  decide

/-! Claim C16: `ForceLoad`. -/

/-- Claim C16, amended: `ForceLoad(ref, proc)` dispatches on the file type
first. For a memory-backed part whose vector is writable the result is a new
empty vector when the vector has length 0 and otherwise a copy of the latest
append-visible view; for a memory-backed part whose vector is read-only it is
a copy of that vector itself; in these cases the vector taken from the buffer
is closed. Only for a part that is not memory-backed is the result decoded
directly from the part's VirtualFile. -/
theorem ForceLoad_spec (part : columnPart) (ref : Nat) :
    (part.GetFileType = FileType.MemFile → part.GetVector.IsReadonly = false →
        part.GetVector.Length ≠ 0 →
        ForceLoad part ref
          = { vec := (part.GetVector.GetLatestView.CopyToVectorWithProc ref).1,
              err := (part.GetVector.GetLatestView.CopyToVectorWithProc ref).2,
              closed := true })
      ∧ (part.GetFileType = FileType.MemFile → part.GetVector.IsReadonly = false →
          part.GetVector.Length = 0 →
          ForceLoad part ref = { vec := some [], err := none, closed := true })
      ∧ (part.GetFileType = FileType.MemFile → part.GetVector.IsReadonly = true →
          ForceLoad part ref
            = { vec := (part.GetVector.CopyToVectorWithProc ref).1,
                err := (part.GetVector.CopyToVectorWithProc ref).2,
                closed := true })
      ∧ (part.GetFileType ≠ FileType.MemFile →
          ForceLoad part ref
            = { vec := (loadFromDisk part ref).1, err := (loadFromDisk part ref).2,
                closed := false }) := by
  refine ⟨?_, ?_, ?_, ?_⟩
  · intro hf hr hl
    unfold ForceLoad
    simp [hf, hr, hl]
  · intro hf hr hl
    unfold ForceLoad
    simp [hf, hr, hl]
  · intro hf hr
    unfold ForceLoad
    simp [hf, hr]
  · intro hf
    unfold ForceLoad defalutPartLoadFunc
    simp [hf]

/-- Witness of claim C16, amended: a writable memory-backed part gives the copy
of its latest view, a read-only one the copy of its vector, a persistent part
the decode of its file. -/
theorem ForceLoad_spec_witness :
    ForceLoad (memPart false) 1 = { vec := some [1, 2], err := none, closed := true }
      ∧ ForceLoad (memPart true) 1 = { vec := some [1, 2, 3], err := none, closed := true }
      ∧ ForceLoad diskPart 1 = { vec := some [1, 2, 3, 4], err := none, closed := false } :=
  ⟨(ForceLoad_spec (memPart false) 1).1 rfl rfl (by decide),
   (ForceLoad_spec (memPart true) 1).2.2.1 rfl rfl,
   (ForceLoad_spec diskPart 1).2.2.2 (by decide)⟩

/-- Counterexample to claim C16 as stated: for a memory-backed part whose vector
is read-only, `ForceLoad` returns the copy of the vector, here three values,
while a decode of the part's VirtualFile fails with error 1. -/
theorem ForceLoad_readonly_memory :
    (memPart true).GetFileType = FileType.MemFile
      ∧ (memPart true).GetVector.IsReadonly = true
      ∧ loadFromDisk (memPart true) 1 = (none, some (Error.Other 1))
      ∧ ForceLoad (memPart true) 1 = { vec := some [1, 2, 3], err := none, closed := true } := by
  decide

/-! Claim C17: `UpdateByFilter`. -/

/-- Claim C17, the code at the failing input: on the table of scenario S1,
`UpdateByFilter` of key 1 (row 0 of block 1) on the primary-key column 0 with
the new value 99 succeeds, range-deletes row 0 and appends the batch
`(1, 10)`, the row as it was: the new value is not in it. On column 1, which
is no part of the primary key, it makes the one call `Update(1, 0, 1, 99)`. -/
theorem UpdateByFilter_pk_drops_value :
    s1Table.schema.IsPartOfPK 0 = true
      ∧ UpdateByFilter s1Table { Op := FilterOp.FilterEq, Val := 1 } 0 99
        = (none,
           [TableCall.GetByFilter { Op := FilterOp.FilterEq, Val := 1 },
            TableCall.GetValue 1 0 0, TableCall.GetValue 1 0 1,
            TableCall.RangeDelete 1 0 0,
            TableCall.Append [[some 1], [some 10]]])
      ∧ UpdateByFilter s1Table { Op := FilterOp.FilterEq, Val := 1 } 1 99
        = (none,
           [TableCall.GetByFilter { Op := FilterOp.FilterEq, Val := 1 },
            TableCall.Update 1 0 1 99]) := by
  decide

/-! Claim C18: the view read by `GetValue`. -/

/-- Claim C18, the code at the failing input: in scenario S1 a reader with
start-ts 3 asks for row 0, column 1. The row is not deleted and the chain has
no value, so `GetValue` reaches the base read; no row is visible at 3, so
`getVectorCopy` returns a nil view with a nil error and reading through it
panics. The same happens at start-ts 10 when `GetMaxVisibleRowLocked` fails:
the view is nil, the error is dropped and the read panics. -/
theorem GetValue_reads_nil_view :
    s1Base.mvcc.IsDeletedLocked 0 3 = (false, none)
      ∧ s1Base.mvcc.GetValueLocked 1 0 3 = (none, some Error.TxnErrNotFound)
      ∧ s1Base.mvcc.GetMaxVisibleRowLocked 3 = (0, false, none)
      ∧ getVectorCopy s1Base 3 1 = (none, none)
      ∧ readRawVec (getVectorCopy s1Base 3 1).1 0 = Exec.panicked
      ∧ (GetValue s1Base { ID := 2, StartTS := 3 } 0 1).result = Exec.panicked
      ∧ s1BrokenBlock.mvcc.GetMaxVisibleRowLocked 10 = (0, false, some (Error.Other 3))
      ∧ getVectorCopy s1BrokenBlock 10 1 = (none, some (Error.Other 3))
      ∧ (GetValue s1BrokenBlock { ID := 2, StartTS := 10 } 0 1).result = Exec.panicked := by
  decide

end Tables
